import Mathlib

/-!
Verification of the three puzzle-simulation engines of the durian-games
repository (Minefield / Minesweeper, Tile-Merge / 2048, Block-Stack / Tetris).

Each engine is shallowly embedded: the mutable TypeScript state managers are
translated into pure Lean functions on explicit state values.  JavaScript
arrays become `List`s, in-place mutation becomes functional update, the
injected randomness (Math.random) becomes explicit parameters (an index / a
coin / a shuffle), and JavaScript runtime exceptions (property access on
`undefined`) are modelled by `Option` results where `none` means "the call
threw".  Timestamps (Date.now) and localStorage persistence carry no game
logic and are modelled as opaque numeric parameters or dropped where no claim
mentions them.
-/

namespace Game2048

/-- Move directions, from src/games/game2048/types.ts. -/
inductive Direction where
  | up | down | left | right
deriving DecidableEq, Repr

/-- Game status for the tile-merge game. -/
inductive GStatus where
  | idle | playing | won | lost
deriving DecidableEq, Repr

/-- `mergeLine`'s in-place merge loop (state.ts lines 336-343), translated to
a recursion over the list.  The source iterates `i` over the array, and when
`newLine[i] === newLine[i+1]` it doubles slot `i`, adds the doubled value to
the score and writes `0` into slot `i+1`; the loop then continues at `i+1`
(whose value is now that `0`).  The recursion mirrors this exactly: after a
merge it continues on `0 :: rest`.  The `fuel` argument is the loop's
iteration bound (one element is consumed per step, so `l.length` steps always
suffice); it makes the recursion structural so that concrete runs reduce. -/
def mergeScanGo (fuel : Nat) : List Nat → List Nat × Nat :=
  fun l =>
    match fuel, l with
    | _, [] => ([], 0)
    | _, [a] => ([a], 0)
    | 0, l => (l, 0)
    | fuel + 1, a :: b :: rest =>
      if a = b then
        let p := mergeScanGo fuel (0 :: rest)
        ((a + a) :: p.1, (a + a) + p.2)
      else
        let p := mergeScanGo fuel (b :: rest)
        (a :: p.1, p.2)

/-- The merge loop run with its full iteration bound. -/
def mergeScan (l : List Nat) : List Nat × Nat :=
  mergeScanGo l.length l

/-- `mergeLine` from state.ts lines 330-354: drop zeros, run the merge loop,
drop zeros again, pad with zeros to the original length. -/
def mergeLine (line : List Nat) : List Nat × Nat :=
  let filtered := line.filter (fun v => v != 0)
  let p := mergeScan filtered
  let result := p.1.filter (fun v => v != 0)
  (result ++ List.replicate (line.length - result.length) 0, p.2)

/-- Modelled from the spec's words (§4.2): scan left-to-right merging each
element with its immediate right neighbour only if equal and not already
merged this pass; after a merged pair the scan continues past both elements
of the pair. -/
def specMergeScan : List Nat → List Nat × Nat
  | [] => ([], 0)
  | [a] => ([a], 0)
  | a :: b :: rest =>
    if a = b then
      let p := specMergeScan rest
      ((a + a) :: p.1, (a + a) + p.2)
    else
      let p := specMergeScan (b :: rest)
      (a :: p.1, p.2)
termination_by l => l.length
decreasing_by
  all_goals simp only [List.length_cons]; omega

/-- Modelled from the spec's words (§4.2): compact by removing zeros, merge
with the single-merge-per-pair rule, compact again, pad with zeros to the
original length. -/
def specLineMerge (line : List Nat) : List Nat × Nat :=
  let filtered := line.filter (fun v => v != 0)
  let p := specMergeScan filtered
  let result := p.1.filter (fun v => v != 0)
  (result ++ List.replicate (line.length - result.length) 0, p.2)

/-- Reading column `j` of the board as a line, top to bottom, as the
`moveUp` loop of state.ts does (lines 286-290). -/
def colLine (size : Nat) (b : List (List Nat)) (j : Nat) : List Nat :=
  (List.range size).map (fun i => (b.getD i []).getD j 0)

/-- The board transform of `move` (state.ts `moveLeft` / `moveRight` /
`moveUp` / `moveDown`, lines 241-325), on the matrix of cell values: each
row (left/right) or column (up/down) is merged with `mergeLine`, right/down
process the reversed line and write the result back reversed.  The board is
rebuilt cell by cell exactly as the source loops write
`board[row][col].value`; the returned number is the summed per-line score. -/
def applyMove (size : Nat) (d : Direction) (b : List (List Nat)) :
    List (List Nat) × Nat :=
  match d with
  | .left =>
    let merged := (List.range size).map (fun i => mergeLine (b.getD i []))
    ((List.range size).map (fun i => (List.range size).map
        (fun j => ((merged.getD i ([], 0)).1).getD j 0)),
     (merged.map (fun p => p.2)).sum)
  | .right =>
    let merged := (List.range size).map (fun i => mergeLine ((b.getD i []).reverse))
    ((List.range size).map (fun i => (List.range size).map
        (fun j => ((merged.getD i ([], 0)).1.reverse).getD j 0)),
     (merged.map (fun p => p.2)).sum)
  | .up =>
    let merged := (List.range size).map (fun j => mergeLine (colLine size b j))
    ((List.range size).map (fun i => (List.range size).map
        (fun j => ((merged.getD j ([], 0)).1).getD i 0)),
     (merged.map (fun p => p.2)).sum)
  | .down =>
    let merged := (List.range size).map (fun j => mergeLine ((colLine size b j).reverse))
    ((List.range size).map (fun i => (List.range size).map
        (fun j => ((merged.getD j ([], 0)).1).getD (size - 1 - i) 0)),
     (merged.map (fun p => p.2)).sum)

/-- Modelled from the spec's words (§4.2): the same per-line processing with
the spec's single-merge-per-pair scan in place of the source's loop. -/
def applyMoveSpec (size : Nat) (d : Direction) (b : List (List Nat)) :
    List (List Nat) × Nat :=
  match d with
  | .left =>
    let merged := (List.range size).map (fun i => specLineMerge (b.getD i []))
    ((List.range size).map (fun i => (List.range size).map
        (fun j => ((merged.getD i ([], 0)).1).getD j 0)),
     (merged.map (fun p => p.2)).sum)
  | .right =>
    let merged := (List.range size).map (fun i => specLineMerge ((b.getD i []).reverse))
    ((List.range size).map (fun i => (List.range size).map
        (fun j => ((merged.getD i ([], 0)).1.reverse).getD j 0)),
     (merged.map (fun p => p.2)).sum)
  | .up =>
    let merged := (List.range size).map (fun j => specLineMerge (colLine size b j))
    ((List.range size).map (fun i => (List.range size).map
        (fun j => ((merged.getD j ([], 0)).1).getD i 0)),
     (merged.map (fun p => p.2)).sum)
  | .down =>
    let merged := (List.range size).map (fun j => specLineMerge ((colLine size b j).reverse))
    ((List.range size).map (fun i => (List.range size).map
        (fun j => ((merged.getD j ([], 0)).1).getD (size - 1 - i) 0)),
     (merged.map (fun p => p.2)).sum)

/-- Game configuration from types.ts. -/
structure GameConfig where
  boardSize : Nat
  winTarget : Nat
  initialCells : Nat
deriving DecidableEq, Repr

/-- The default 4x4 / 2048 / 2-initial-cells configuration. -/
def DEFAULT_CONFIG : GameConfig := ⟨4, 2048, 2⟩

/-- One history entry (`GameHistoryState` in types.ts).  The presentational
`isNew` / `isMerged` cell flags never influence any transition (they are
cleared at the start of every move and only read by the renderer), so boards
are embedded as their value matrices. -/
structure HistoryEntry where
  board : List (List Nat)
  score : Nat
  moveCount : Nat
deriving DecidableEq, Repr

/-- The manager state (`Game2048State` in types.ts) together with the
manager's private `history` field.  `history` is kept newest-first: the
source's `push`/`pop` at the array end become cons / head here, and the
source's `shift()` (evict oldest) becomes `dropLast`.  `startTime`/`endTime`
carry no game logic and are omitted. -/
structure GState where
  status : GStatus
  board : List (List Nat)
  score : Nat
  bestScore : Nat
  canUndo : Bool
  moveCount : Nat
  highestTile : Nat
  bestTile : Nat
  history : List HistoryEntry
deriving DecidableEq, Repr

/-- The random outcomes consumed by one `addRandomCell` call: the index drawn
by `Math.floor(Math.random() * emptyCells.length)` and whether the 10% branch
producing a 4 was taken. -/
structure SpawnRand where
  idx : Nat
  four : Bool
deriving DecidableEq, Repr

/-- `getEmptyCells` (state.ts lines 147-160): row-major positions whose value
is 0. -/
def getEmptyCells (size : Nat) (b : List (List Nat)) : List (Nat × Nat) :=
  (List.range size).flatMap (fun r =>
    ((List.range size).filter (fun c => (b.getD r []).getD c 0 == 0)).map
      (fun c => (r, c)))

/-- Writing a single cell value into the board. -/
def setCellVal (b : List (List Nat)) (r c v : Nat) : List (List Nat) :=
  b.set r ((b.getD r []).set c v)

/-- `addRandomCell` (state.ts lines 124-142): pick a random empty cell and
write a 2 (probability 0.9) or a 4 (probability 0.1) there; no-op if the
board is full.  The random draw is `rand.idx % emptyCells.length`, which
ranges over exactly the outcomes of `Math.floor(Math.random() * length)`. -/
def addRandomCell (size : Nat) (rand : SpawnRand) (b : List (List Nat)) :
    List (List Nat) :=
  let e := getEmptyCells size b
  if e.isEmpty then b
  else
    let pos := e.getD (rand.idx % e.length) (0, 0)
    setCellVal b pos.1 pos.2 (if rand.four then 4 else 2)

/-- All cell values of the `size × size` board, row-major. -/
def allVals (size : Nat) (b : List (List Nat)) : List Nat :=
  (List.range size).flatMap (fun r => (List.range size).map
    (fun c => (b.getD r []).getD c 0))

/-- `updateHighestTile`'s scan (state.ts lines 359-373). -/
def maxTile (size : Nat) (b : List (List Nat)) : Nat :=
  (allVals size b).foldl max 0

/-- `checkFor2048` (state.ts lines 378-388): some cell has reached the win
target. -/
def checkFor2048 (cfg : GameConfig) (b : List (List Nat)) : Bool :=
  (allVals cfg.boardSize b).any (fun v => cfg.winTarget ≤ v)

/-- `boardsEqual` (state.ts lines 491-501): cell-by-cell value comparison
over the `size × size` grid. -/
def boardsEqualB (size : Nat) (b1 b2 : List (List Nat)) : Bool :=
  (List.range size).all (fun r => (List.range size).all
    (fun c => (b1.getD r []).getD c 0 == (b2.getD r []).getD c 0))

/-- `canMove` (state.ts lines 411-443): an empty cell exists, or two
horizontally or vertically adjacent cells hold the same value. -/
def canMoveB (cfg : GameConfig) (b : List (List Nat)) : Bool :=
  let size := cfg.boardSize
  !(getEmptyCells size b).isEmpty ||
    (List.range size).any (fun r => (List.range size).any (fun c =>
      (decide (c + 1 < size) &&
        ((b.getD r []).getD c 0 == (b.getD r []).getD (c + 1) 0)) ||
      (decide (r + 1 < size) &&
        ((b.getD r []).getD c 0 == (b.getD (r + 1) []).getD c 0))))

/-- `saveToHistory` (state.ts lines 466-479): push the entry, then evict the
oldest if more than 10 are stored.  With the newest-first orientation used
here, push is cons and evicting the oldest is `dropLast`. -/
def pushHistory (h : List HistoryEntry) (e : HistoryEntry) : List HistoryEntry :=
  let h2 := e :: h
  if 10 < h2.length then h2.dropLast else h2

/-- The result record returned by `move`. -/
structure MoveResult where
  moved : Bool
  scoreIncrease : Nat
  reached2048 : Bool
deriving DecidableEq, Repr

/-- `move` (state.ts lines 165-236).  Rejects unless status is `playing`;
saves the pre-move snapshot to the history; applies the directional
transform; if some cell value changed it bumps score / moveCount / canUndo,
computes `reached2048` (before the spawn), updates the highest tile, spawns
one random cell, re-evaluates win/loss, and raises the best-score/best-tile
watermarks; otherwise it pops the just-pushed history entry. -/
def move (cfg : GameConfig) (rand : SpawnRand) (s : GState) (d : Direction) :
    GState × MoveResult :=
  if s.status ≠ GStatus.playing then (s, ⟨false, 0, false⟩)
  else
    let hist1 := pushHistory s.history ⟨s.board, s.score, s.moveCount⟩
    let mr := applyMove cfg.boardSize d s.board
    let moved := !(boardsEqualB cfg.boardSize s.board mr.1)
    if moved then
      let score1 := s.score + mr.2
      let reached := checkFor2048 cfg mr.1
      let highest1 := maxTile cfg.boardSize mr.1
      let b2 := addRandomCell cfg.boardSize rand mr.1
      let st1 := if checkFor2048 cfg b2 then GStatus.won
        else if !(canMoveB cfg b2) then GStatus.lost else GStatus.playing
      ({ status := st1
         board := b2
         score := score1
         bestScore := if s.bestScore < score1 then score1 else s.bestScore
         canUndo := true
         moveCount := s.moveCount + 1
         highestTile := highest1
         bestTile := if s.bestTile < highest1 then highest1 else s.bestTile
         history := hist1 }, ⟨true, mr.2, reached⟩)
    else
      ({ s with history := hist1.drop 1 }, ⟨false, mr.2, false⟩)

/-- `undo` (state.ts lines 448-461): no-op returning false when `canUndo` is
unset or the history is empty; otherwise pops the newest entry and restores
board / score / moveCount from it.  Note the source checks `canUndo` and the
history length but not the game status. -/
def undo (s : GState) : GState × Bool :=
  if !s.canUndo || s.history.isEmpty then (s, false)
  else
    match s.history with
    | [] => (s, false)
    | e :: rest =>
      ({ s with board := e.board, score := e.score, moveCount := e.moveCount
                canUndo := !rest.isEmpty, history := rest }, true)

/-- `createEmptyBoard` (state.ts lines 83-99), as a value matrix. -/
def createEmptyBoard (size : Nat) : List (List Nat) :=
  List.replicate size (List.replicate size 0)

/-- `createInitialState` (state.ts lines 63-78).  `bestScore` / `bestTile`
stand for the values loaded from localStorage. -/
def createInitialState (cfg : GameConfig) (bestScore bestTile : Nat) : GState :=
  { status := GStatus.idle
    board := createEmptyBoard cfg.boardSize
    score := 0
    bestScore := bestScore
    canUndo := false
    moveCount := 0
    highestTile := 0
    bestTile := bestTile
    history := [] }

/-- `startNewGame` (state.ts lines 104-119): reset, spawn `initialCells`
random cells, compute the highest tile, set status to `playing`.  `rands`
supplies the random outcome of each spawn. -/
def startNewGame (cfg : GameConfig) (bestScore bestTile : Nat)
    (rands : List SpawnRand) : GState :=
  let s0 := createInitialState cfg bestScore bestTile
  let b := (List.range cfg.initialCells).foldl
    (fun b i => addRandomCell cfg.boardSize (rands.getD i ⟨0, false⟩) b) s0.board
  { s0 with board := b, highestTile := maxTile cfg.boardSize b
            status := GStatus.playing }

/-- `continueGame` (engine level, game2048 core logic): allows `won →
playing` without touching anything else. -/
def continueGame (s : GState) : GState :=
  if s.status = GStatus.won then { s with status := GStatus.playing } else s

/-- A value is a power of two that is at least 2. -/
def IsPow2Tile (v : Nat) : Prop := ∃ k : Nat, v = 2 ^ (k + 1)

/-- Every non-zero cell value of the board is a power of two at least 2. -/
def BoardOk (b : List (List Nat)) : Prop :=
  ∀ row ∈ b, ∀ v ∈ row, v ≠ 0 → IsPow2Tile v

/-- The invariant carried through every reachable state: the live board and
every history snapshot satisfy `BoardOk`. -/
def StateOk (s : GState) : Prop :=
  BoardOk s.board ∧ ∀ e ∈ s.history, BoardOk e.board

/-- States reachable from `startNewGame` by any sequence of `move`, `undo`
and `continueGame`, over all random outcomes. -/
inductive Reachable (cfg : GameConfig) : GState → Prop where
  | start (bestScore bestTile : Nat) (rands : List SpawnRand) :
      Reachable cfg (startNewGame cfg bestScore bestTile rands)
  | move (s : GState) (rand : SpawnRand) (d : Direction) :
      Reachable cfg s → Reachable cfg (Game2048.move cfg rand s d).1
  | undo (s : GState) :
      Reachable cfg s → Reachable cfg (Game2048.undo s).1
  | continueGame (s : GState) :
      Reachable cfg s → Reachable cfg (Game2048.continueGame s)

/-- A `won` state with undo history, as produced by a winning `move`: used to
exhibit the behaviour of `undo` in terminal states. -/
def wonStateWithHistory : GState :=
  { status := GStatus.won
    board := [[2048, 4, 0, 0], [0, 0, 0, 0], [0, 0, 0, 0], [0, 0, 0, 0]]
    score := 2052
    bestScore := 2052
    canUndo := true
    moveCount := 7
    highestTile := 2048
    bestTile := 2048
    history := [⟨[[1024, 1024, 4, 0], [0, 0, 0, 0], [0, 0, 0, 0], [0, 0, 0, 0]], 4, 6⟩] }

/-- A playing state one merge away from the win target: moving left merges
the two 1024 tiles, reaches 2048 and ends in status `won`. -/
def preWinState : GState :=
  { status := GStatus.playing
    board := [[1024, 1024, 4, 0], [0, 0, 0, 0], [0, 0, 0, 0], [0, 0, 0, 0]]
    score := 4
    bestScore := 1024
    canUndo := false
    moveCount := 6
    highestTile := 1024
    bestTile := 1024
    history := [] }

/-- A playing state whose history already holds 10 entries, and whose board
cannot move left: used to exhibit the history eviction on a rejected move. -/
def fullHistoryState : GState :=
  { status := GStatus.playing
    board := [[2, 0, 0, 0], [0, 0, 0, 0], [0, 0, 0, 0], [0, 0, 0, 0]]
    score := 40
    bestScore := 40
    canUndo := true
    moveCount := 10
    highestTile := 2
    bestTile := 4
    history := (List.range 10).map
      (fun i => ⟨[[2, 0, 0, 0], [0, 0, 0, 0], [0, 0, 0, 0], [0, 0, 0, 0]], i, i⟩) }

end Game2048

namespace Tetris

/-- The seven canonical piece types (tetris/types.ts). -/
inductive PieceType where
  | I | O | T | S | Z | J | L
deriving DecidableEq, Repr

/-- Block-Stack game status. -/
inductive TStatus where
  | idle | playing | paused | lost
deriving DecidableEq, Repr

/-- A board position; JavaScript numbers may go negative during wall kicks,
so coordinates are integers. -/
structure Position where
  x : Int
  y : Int
deriving DecidableEq, Repr

/-- `PIECE_SHAPES` (tetris/types.ts lines 23-134), verbatim. -/
def PIECE_SHAPES (t : PieceType) : List (List (List Nat)) :=
  match t with
  | .I =>
    [[[0, 0, 0, 0], [1, 1, 1, 1], [0, 0, 0, 0], [0, 0, 0, 0]],
     [[0, 0, 1, 0], [0, 0, 1, 0], [0, 0, 1, 0], [0, 0, 1, 0]]]
  | .O => [[[1, 1], [1, 1]]]
  | .T =>
    [[[0, 1, 0], [1, 1, 1], [0, 0, 0]],
     [[0, 1, 0], [0, 1, 1], [0, 1, 0]],
     [[0, 0, 0], [1, 1, 1], [0, 1, 0]],
     [[0, 1, 0], [1, 1, 0], [0, 1, 0]]]
  | .S =>
    [[[0, 1, 1], [1, 1, 0], [0, 0, 0]],
     [[0, 1, 0], [0, 1, 1], [0, 0, 1]]]
  | .Z =>
    [[[1, 1, 0], [0, 1, 1], [0, 0, 0]],
     [[0, 0, 1], [0, 1, 1], [0, 1, 0]]]
  | .J =>
    [[[1, 0, 0], [1, 1, 1], [0, 0, 0]],
     [[0, 1, 1], [0, 1, 0], [0, 1, 0]],
     [[0, 0, 0], [1, 1, 1], [0, 0, 1]],
     [[0, 1, 0], [0, 1, 0], [1, 1, 0]]]
  | .L =>
    [[[0, 0, 1], [1, 1, 1], [0, 0, 0]],
     [[0, 1, 0], [0, 1, 0], [0, 1, 1]],
     [[0, 0, 0], [1, 1, 1], [1, 0, 0]],
     [[1, 1, 0], [0, 1, 0], [0, 1, 0]]]

/-- A falling piece (tetris/types.ts). -/
structure TetrisPiece where
  type : PieceType
  position : Position
  rotation : Nat
  shape : List (List Nat)
deriving DecidableEq, Repr

/-- `canPlacePiece` (tetris/state.ts lines 69-101): every filled cell of the
shape matrix must map to an in-bounds, empty board cell.  The width bound is
`board[0].length` exactly as in the source. -/
def canPlacePiece (board : List (List (Option PieceType)))
    (piece : TetrisPiece) (pos : Position) : Bool :=
  piece.shape.enum.all (fun rc =>
    rc.2.enum.all (fun cv =>
      if cv.2 == 1 then
        let boardX : Int := pos.x + cv.1
        let boardY : Int := pos.y + rc.1
        decide (0 ≤ boardX) && decide (boardX < ((board.headD []).length : Int)) &&
        decide (0 ≤ boardY) && decide (boardY < (board.length : Int)) &&
        decide ((board.getD boardY.toNat []).getD boardX.toNat none = none)
      else true))

/-- `rotatePiece` (tetris/state.ts lines 160-169): advance to the next
rotation state of the per-type shape table, keeping the position. -/
def rotatePiece (piece : TetrisPiece) : TetrisPiece :=
  let shapes := PIECE_SHAPES piece.type
  let nextRotation := (piece.rotation + 1) % shapes.length
  { piece with rotation := nextRotation, shape := shapes.getD nextRotation [] }

/-- The fixed wall-kick offsets of the engine's rotate handler
(tetris/game.ts lines 196-202), in source order. -/
def kickOffsets : List (Int × Int) := [(-1, 0), (1, 0), (0, -1), (-1, -1), (1, -1)]

/-- The engine state fields the rotate command touches (tetris/types.ts
`TetrisState`; timing fields carry no rotation logic and are omitted). -/
structure TetrisState where
  status : TStatus
  board : List (List (Option PieceType))
  currentPiece : Option TetrisPiece
  nextPiece : Option TetrisPiece
  score : Nat
  level : Nat
  lines : Nat
deriving DecidableEq, Repr

/-- The engine's wall-kick loop (tetris/game.ts lines 204-218): try each
offset in order, accepting the first kicked position that satisfies the
collision predicate. -/
def tryKicks (board : List (List (Option PieceType))) (rp : TetrisPiece) :
    List (Int × Int) → Option Position
  | [] => none
  | (dx, dy) :: rest =>
    let kicked : Position := ⟨rp.position.x + dx, rp.position.y + dy⟩
    if canPlacePiece board rp kicked then some kicked
    else tryKicks board rp rest

/-- The engine's rotate command (tetris/game.ts `handleInput` guard, lines
113-137, plus the private `rotatePiece` method, lines 183-219): no-op unless
playing with a current piece; try the rotated shape at the unmodified
position, then the wall kicks in order; leave the state unchanged if all
fail. -/
def rotateCmd (s : TetrisState) : TetrisState :=
  if s.status ≠ TStatus.playing then s
  else
    match s.currentPiece with
    | none => s
    | some p =>
      let rp := rotatePiece p
      if canPlacePiece s.board rp rp.position then { s with currentPiece := some rp }
      else
        match tryKicks s.board rp kickOffsets with
        | some kp => { s with currentPiece := some { rp with position := kp } }
        | none => s

/-- The candidate positions of a rotation in the order the source tries
them: the unmodified position, then each wall-kick offset. -/
def candidatePositions (rp : TetrisPiece) : List Position :=
  rp.position :: kickOffsets.map (fun o => ⟨rp.position.x + o.1, rp.position.y + o.2⟩)

/-- A row is complete when every cell is filled (`every ((cell) => cell !==
null)`, tetris/state.ts line 142). -/
def isComplete (row : List (Option PieceType)) : Bool :=
  row.all (fun cell => decide (cell ≠ none))

/-- The scan of `clearCompleteLines` (tetris/state.ts lines 133-157): the
source walks rows bottom-to-top, counting complete rows and `unshift`-ing
each incomplete row onto the front of the new board, which keeps the
incomplete rows in their original top-to-bottom order; this recursion
computes the same result top-down. -/
def clearScan : List (List (Option PieceType)) →
    List (List (Option PieceType)) × Nat
  | [] => ([], 0)
  | r :: rest =>
    let p := clearScan rest
    if isComplete r then (p.1, p.2 + 1) else (r :: p.1, p.2)

/-- `clearCompleteLines` (tetris/state.ts lines 133-157): drop the complete
rows, then pad empty rows (width `board[0].length`) at the top until the
original height is restored. -/
def clearCompleteLines (board : List (List (Option PieceType))) :
    List (List (Option PieceType)) × Nat :=
  let p := clearScan board
  (List.replicate (board.length - p.1.length)
      (List.replicate (board.headD []).length (none : Option PieceType)) ++ p.1,
   p.2)

/-- An empty width-10 row. -/
def emptyRow10 : List (Option PieceType) := List.replicate 10 none

/-- A width-10 row with a hole in its first cell. -/
def holeRow10 : List (Option PieceType) :=
  none :: List.replicate 9 (some PieceType.I)

/-- A full width-10 row. -/
def fullRow10 : List (Option PieceType) := List.replicate 10 (some PieceType.I)

/-- 18 incomplete rows, the stack above the two rows being completed. -/
def stack18 : List (List (Option PieceType)) := List.replicate 18 holeRow10

/-- A playing state whose current T piece cannot rotate in place (the cell at
row 2, column 2 is occupied) but can rotate after the `(-1,0)` kick. -/
def kickDemoState : TetrisState :=
  { status := TStatus.playing
    board := [emptyRow10, emptyRow10,
        [none, none, some PieceType.T, none, none, none, none, none, none, none]]
      ++ List.replicate 17 emptyRow10
    currentPiece := some
      { type := PieceType.T
        position := ⟨1, 0⟩
        rotation := 0
        shape := [[0, 1, 0], [1, 1, 1], [0, 0, 0]] }
    nextPiece := none
    score := 0
    level := 1
    lines := 0 }

end Tetris

namespace Minesweeper

/-- Cell visibility states (minesweeper/types.ts). -/
inductive CellState where
  | hidden | revealed | flagged | questioned
deriving DecidableEq, Repr

/-- Minefield game status. -/
inductive MStatus where
  | idle | playing | won | lost
deriving DecidableEq, Repr

/-- A board cell (minesweeper/types.ts).  The source also stores the cell's
own row/col indices; here position is carried by the grid itself. -/
structure MsCell where
  isMine : Bool
  neighborMines : Nat
  state : CellState
deriving DecidableEq, Repr

/-- A hidden, non-mine, zero-count cell: the value `createEmptyBoard` fills
the grid with. -/
def freshCell : MsCell := ⟨false, 0, CellState.hidden⟩

/-- Game configuration (minesweeper/types.ts).  The `difficulty` tag only
selects the score multiplier and is omitted. -/
structure MsConfig where
  rows : Nat
  cols : Nat
  mines : Nat
deriving DecidableEq, Repr

/-- The manager state (minesweeper/types.ts `MinesweeperState`).
`remainingMines` may go negative when over-flagged, hence `Int`.  The
score/timestamp fields carry no transition logic used by any claim and are
omitted. -/
structure MsState where
  status : MStatus
  board : List (List MsCell)
  config : MsConfig
  remainingMines : Int
  flaggedMines : Nat
  revealedCells : Nat
deriving DecidableEq, Repr

/-- `createEmptyBoard` (minesweeper/state.ts lines 78-95). -/
def createEmptyBoard (rows cols : Nat) : List (List MsCell) :=
  List.replicate rows (List.replicate cols freshCell)

/-- `createInitialState` (minesweeper/state.ts lines 59-73). -/
def createInitialState (cfg : MsConfig) : MsState :=
  { status := MStatus.idle
    board := createEmptyBoard cfg.rows cfg.cols
    config := cfg
    remainingMines := (cfg.mines : Int)
    flaggedMines := 0
    revealedCells := 0 }

/-- JavaScript's `board[r][c]`: `none` when the access would dereference
`undefined` (out-of-range row or column), which in the source throws a
`TypeError` as soon as a property of the result is read. -/
def cellAt? (b : List (List MsCell)) (r c : Nat) : Option MsCell :=
  (b[r]?).bind (fun row => row[c]?)

/-- In-bounds cell read used by the internal loops, which only ever access
coordinates inside the config grid. -/
def getCell (b : List (List MsCell)) (r c : Nat) : MsCell :=
  (b.getD r []).getD c freshCell

/-- In-place update of one cell. -/
def modifyCell (b : List (List MsCell)) (r c : Nat) (f : MsCell → MsCell) :
    List (List MsCell) :=
  b.set r ((b.getD r []).set c (f (getCell b r c)))

/-- The exclusion test of `placeMines` (minesweeper/state.ts lines 123-124):
`Math.abs(row - excludeRow) <= 1 && Math.abs(col - excludeCol) <= 1`. -/
def isExcluded (r c er ec : Nat) : Bool :=
  ((r : Int) - er).natAbs ≤ 1 && ((c : Int) - ec).natAbs ≤ 1

/-- The row-major list of candidate mine positions: all cells outside the
3x3 neighbourhood of the first click (minesweeper/state.ts lines 120-129). -/
def availableCells (rows cols er ec : Nat) : List (Nat × Nat) :=
  (List.range rows).flatMap (fun r =>
    ((List.range cols).filter (fun c => !(isExcluded r c er ec))).map
      (fun c => (r, c)))

/-- `placeMines` (minesweeper/state.ts lines 115-138): shuffle the available
cells, take the first `mines` of them, and set `isMine` there.  The injected
`shuffle` function stands for `shuffleArray`'s random outcome; theorems
hypothesise that it permutes its input. -/
def placeMines (shuffle : List (Nat × Nat) → List (Nat × Nat)) (cfg : MsConfig)
    (er ec : Nat) (b : List (List MsCell)) : List (List MsCell) :=
  let avail := availableCells cfg.rows cfg.cols er ec
  let minePositions := (shuffle avail).take cfg.mines
  minePositions.foldl
    (fun b p => modifyCell b p.1 p.2 (fun cell => { cell with isMine := true })) b

/-- The clamped 3x3 neighbourhood of `(r, c)` minus the cell itself, in the
row-major order of the source's nested loops (used by
`countNeighborMines`, `revealNeighbors`, lines 161-180 and 247-264). -/
def neighborList (rows cols r c : Nat) : List (Nat × Nat) :=
  ((List.range rows).filter (fun a => r ≤ a + 1 && a ≤ r + 1)).flatMap (fun a =>
    ((List.range cols).filter (fun b2 => c ≤ b2 + 1 && b2 ≤ c + 1)).filterMap
      (fun b2 => if a = r ∧ b2 = c then none else some (a, b2)))

/-- `countNeighborMines` (minesweeper/state.ts lines 161-180). -/
def countNeighborMines (b : List (List MsCell)) (rows cols r c : Nat) : Nat :=
  (neighborList rows cols r c).countP (fun p => (getCell b p.1 p.2).isMine)

/-- `calculateNeighborMines` (minesweeper/state.ts lines 143-156): write
each non-mine cell's neighbour-mine count.  All counts are read from the
pre-pass board, which is sound because the pass never writes `isMine`. -/
def calculateNeighborMines (cfg : MsConfig) (b : List (List MsCell)) :
    List (List MsCell) :=
  (List.range cfg.rows).map (fun r => (List.range cfg.cols).map (fun c =>
    let cell := getCell b r c
    if cell.isMine then cell
    else { cell with neighborMines := countNeighborMines b cfg.rows cfg.cols r c }))

/-- `initializeGame` (minesweeper/state.ts lines 100-110). -/
def initializeGame (shuffle : List (Nat × Nat) → List (Nat × Nat))
    (s : MsState) (r c : Nat) : MsState :=
  if s.status ≠ MStatus.idle then s
  else
    { s with
      board := calculateNeighborMines s.config (placeMines shuffle s.config r c s.board)
      status := MStatus.playing }

/-- `revealAllMines` (minesweeper/state.ts lines 269-280): every unflagged
mine becomes revealed.  The source iterates the config grid in place; on the
well-formed boards all theorems use this equals a cell-wise map. -/
def revealAllMines (b : List (List MsCell)) : List (List MsCell) :=
  b.map (fun row => row.map (fun cell =>
    if cell.isMine && !(cell.state == CellState.flagged) then
      { cell with state := CellState.revealed }
    else cell))

/-- `checkWinCondition` (minesweeper/state.ts lines 285-294), without the
score computation. -/
def checkWinCondition (s : MsState) : MsState :=
  if s.revealedCells = s.config.rows * s.config.cols - s.config.mines then
    { s with status := MStatus.won }
  else s

/-- Number of hidden cells on the board: the bound on the flood-fill
recursion depth. -/
def hiddenCount (b : List (List MsCell)) : Nat :=
  (b.map (fun row => row.countP (fun cell => decide (cell.state = CellState.hidden)))).sum

/-- Number of mines on the board. -/
def countMines (b : List (List MsCell)) : Nat :=
  (b.map (fun row => row.countP (fun cell => cell.isMine))).sum

/-- The loop body of `revealNeighbors` (minesweeper/state.ts lines 247-264):
walk the neighbour list, calling back into `revealCell` (passed as `f`) on
each cell that is hidden at its turn; `none` propagates a thrown error or
exhausted fuel. -/
def revealListGoAux (f : MsState → Nat → Nat → Option (MsState × Bool)) :
    MsState → List (Nat × Nat) → Option MsState
  | s, [] => some s
  | s, p :: rest =>
    match cellAt? s.board p.1 p.2 with
    | none => none
    | some nb =>
      if nb.state = CellState.hidden then
        match f s p.1 p.2 with
        | none => none
        | some (s', _) => revealListGoAux f s' rest
      else revealListGoAux f s rest

/-- `revealCell` (minesweeper/state.ts lines 185-218) with an explicit fuel
bounding the mutual-recursion depth (each nested call first reveals a hidden
cell, so `hiddenCount + 1` always suffices; see `revealCell`).  Result
`none` models either a thrown `TypeError` (out-of-range access) or exhausted
fuel; the theorems separate the two.  Steps, in source order: terminal
status is a no-op; reading `board[row][col]` throws when out of range; a
non-hidden cell is a no-op; a first click initializes the game; the cell is
revealed and the revealed counter bumped; a mine ends the game and reveals
all mines; otherwise a zero-count cell floods its neighbours, and the win
condition is checked. -/
def revealCellGo (shuffle : List (Nat × Nat) → List (Nat × Nat)) :
    Nat → MsState → Nat → Nat → Option (MsState × Bool)
  | 0, _, _, _ => none
  | fuel + 1, s, r, c =>
    if s.status = MStatus.won ∨ s.status = MStatus.lost then some (s, false)
    else
      match cellAt? s.board r c with
      | none => none
      | some cell0 =>
        if cell0.state ≠ CellState.hidden then some (s, false)
        else
          let s1 := if s.status = MStatus.idle then initializeGame shuffle s r c else s
          match cellAt? s1.board r c with
          | none => none
          | some cell =>
            let s2 := { s1 with
              board := modifyCell s1.board r c
                (fun cl => { cl with state := CellState.revealed })
              revealedCells := s1.revealedCells + 1 }
            if cell.isMine then
              some ({ s2 with
                status := MStatus.lost
                board := revealAllMines s2.board }, true)
            else
              match (if cell.neighborMines = 0 then
                  revealListGoAux (revealCellGo shuffle fuel) s2
                    (neighborList s2.config.rows s2.config.cols r c)
                else some s2) with
              | none => none
              | some s3 => some (checkWinCondition s3, true)

/-- `revealCell` run with enough fuel for any flood (one fuel unit is
consumed per nesting level, and every nesting level first turns a hidden
cell into a revealed one). -/
def revealCell (shuffle : List (Nat × Nat) → List (Nat × Nat)) (s : MsState)
    (r c : Nat) : Option (MsState × Bool) :=
  revealCellGo shuffle (hiddenCount s.board + 1) s r c

/-- `toggleFlag` (minesweeper/state.ts lines 223-242): no-op on terminal
status or revealed cells; cycles hidden to flagged and back, adjusting the
counters; a questioned cell falls through every branch but still reports
true.  Out-of-range coordinates dereference `undefined` (`none`). -/
def toggleFlag (s : MsState) (r c : Nat) : Option (MsState × Bool) :=
  if s.status = MStatus.won ∨ s.status = MStatus.lost then some (s, false)
  else
    match cellAt? s.board r c with
    | none => none
    | some cell =>
      if cell.state = CellState.revealed then some (s, false)
      else if cell.state = CellState.hidden then
        some ({ s with
          board := modifyCell s.board r c
            (fun cl => { cl with state := CellState.flagged })
          flaggedMines := s.flaggedMines + 1
          remainingMines := s.remainingMines - 1 }, true)
      else if cell.state = CellState.flagged then
        some ({ s with
          board := modifyCell s.board r c
            (fun cl => { cl with state := CellState.hidden })
          flaggedMines := s.flaggedMines - 1
          remainingMines := s.remainingMines + 1 }, true)
      else some (s, true)

/-- `setCustomConfig` (minesweeper engine): rows/cols clamped to [5, 50],
mines clamped to [1, floor(rows*cols*0.8)], where the float product agrees
with the exact rational for every board size the concrete theorems use. -/
def setCustomConfig (rows cols mines : Nat) : MsConfig :=
  let maxMines := rows * cols * 8 / 10
  let validMines := min (max 1 mines) maxMines
  { rows := max 5 (min 50 rows)
    cols := max 5 (min 50 cols)
    mines := validMines }

/-- Both dimensions of the board match the config grid. -/
def Dims (b : List (List MsCell)) (rows cols : Nat) : Prop :=
  b.length = rows ∧ ∀ row ∈ b, row.length = cols

/-- The mine/count skeleton of the board: everything except visibility. -/
def skeleton (b : List (List MsCell)) : List (List (Bool × Nat)) :=
  b.map (fun row => row.map (fun cell => (cell.isMine, cell.neighborMines)))

/-- Precondition shared by the flood-fill lemmas: the board fills the config
grid and the game is no longer idle. -/
def RevealPre (s : MsState) : Prop :=
  Dims s.board s.config.rows s.config.cols ∧ s.status ≠ MStatus.idle

/-- Specification carried through the flood fill: with fuel exceeding the
number of hidden cells, a reveal call on in-bounds coordinates returns
(no thrown error, no fuel exhaustion), changes only cell visibility and the
counters/status, and never increases the number of hidden cells. -/
def CellSpec (shuffle : List (Nat × Nat) → List (Nat × Nat)) (fuel : Nat) : Prop :=
  ∀ s r c, RevealPre s → fuel > hiddenCount s.board →
    r < s.config.rows → c < s.config.cols →
    ∃ s' b, revealCellGo shuffle fuel s r c = some (s', b) ∧
      skeleton s'.board = skeleton s.board ∧ s'.config = s.config ∧
      s'.status ≠ MStatus.idle ∧ hiddenCount s'.board ≤ hiddenCount s.board


/-- Number of revealed cells on the board (the quantity `revealedCells`
tracks in the source). -/
def revealedCount (b : List (List MsCell)) : Nat :=
  (b.map (fun row => row.countP (fun cell => decide (cell.state = CellState.revealed)))).sum

/-- Neighbour counts are consistent with the mines: the neighbours of a
non-mine cell whose stored count is 0 hold no mines.  `initializeGame`
establishes this and reveals never disturb it. -/
def Consistent (b : List (List MsCell)) (rows cols : Nat) : Prop :=
  ∀ r, r < rows → ∀ c, c < cols →
    (getCell b r c).isMine = false → (getCell b r c).neighborMines = 0 →
    ∀ p ∈ neighborList rows cols r c, (getCell b p.1 p.2).isMine = false

/-- Every hidden in-bounds cell is a mine (what the win condition
guarantees when it fires). -/
def NoHiddenNonMine (s : MsState) : Prop :=
  ∀ r, r < s.config.rows → ∀ c, c < s.config.cols →
    (getCell s.board r c).state = CellState.hidden →
    (getCell s.board r c).isMine = true

/-- Well-formedness of a mid-game state: full-grid board, consistent
counts, as many mines as configured, an accurate revealed-cells counter,
and no revealed mines. -/
def WfR (s : MsState) : Prop :=
  Dims s.board s.config.rows s.config.cols ∧
  Consistent s.board s.config.rows s.config.cols ∧
  countMines s.board = s.config.mines ∧
  s.revealedCells = revealedCount s.board ∧
  (∀ r, r < s.config.rows → ∀ c, c < s.config.cols →
    (getCell s.board r c).state = CellState.revealed →
    (getCell s.board r c).isMine = false)

/-- The only cell change a reveal pass makes: a hidden cell may become
revealed, everything else keeps its visibility. -/
def BoardMono (b b' : List (List MsCell)) : Prop :=
  ∀ r c, (getCell b' r c).state = (getCell b r c).state ∨
    ((getCell b r c).state = CellState.hidden ∧
     (getCell b' r c).state = CellState.revealed)

/-- Modelled from the spec (§4.2): the flood region as the spec words it —
the connected component of zero-neighbor-count cells containing the
clicked cell, together with every cell bordering that component.  No
visibility condition appears. -/
inductive ReachP (b : List (List MsCell)) (rows cols r0 c0 : Nat) : Nat → Nat → Prop where
  | start : ReachP b rows cols r0 c0 r0 c0
  | step : ∀ {r c r' c'}, ReachP b rows cols r0 c0 r c →
      (getCell b r c).neighborMines = 0 →
      (r', c') ∈ neighborList rows cols r c →
      ReachP b rows cols r0 c0 r' c'

/-- The region the code's flood fill actually reveals: like `ReachP`, but
the flood only passes through and into cells that are hidden (so flagged
or questioned cells block it), and only through non-mine cells. -/
inductive ReachH (b : List (List MsCell)) (rows cols r0 c0 : Nat) : Nat → Nat → Prop where
  | start : ReachH b rows cols r0 c0 r0 c0
  | step : ∀ {r c r' c'}, ReachH b rows cols r0 c0 r c →
      (getCell b r c).state = CellState.hidden →
      (getCell b r c).isMine = false →
      (getCell b r c).neighborMines = 0 →
      (r', c') ∈ neighborList rows cols r c →
      (getCell b r' c').state = CellState.hidden →
      ReachH b rows cols r0 c0 r' c'

/-- Refined flood-fill specification: on a playing, well-formed state and
an in-bounds non-mine target, the reveal terminates and (beyond the
`CellSpec` conclusions) changes only visibility monotonically, reveals the
clicked cell, reveals only `ReachH`-reachable cells, leaves no hidden
neighbour next to a newly revealed zero cell, and only reports `won` when
every hidden cell is a mine. -/
def CellSpecR (shuffle : List (Nat × Nat) → List (Nat × Nat)) (fuel : Nat) : Prop :=
  ∀ s r c, s.status = MStatus.playing → WfR s →
    fuel > hiddenCount s.board → r < s.config.rows → c < s.config.cols →
    (getCell s.board r c).isMine = false →
    ∃ s' b2, revealCellGo shuffle fuel s r c = some (s', b2) ∧
      skeleton s'.board = skeleton s.board ∧
      s'.config = s.config ∧
      (s'.status = MStatus.playing ∨ s'.status = MStatus.won) ∧
      WfR s' ∧
      hiddenCount s'.board ≤ hiddenCount s.board ∧
      BoardMono s.board s'.board ∧
      ((getCell s.board r c).state = CellState.hidden →
        (getCell s'.board r c).state = CellState.revealed) ∧
      (∀ r' c', (getCell s'.board r' c').state = CellState.revealed →
        (getCell s.board r' c').state = CellState.revealed ∨
        ReachH s.board s.config.rows s.config.cols r c r' c') ∧
      (∀ r' c', r' < s.config.rows → c' < s.config.cols →
        (getCell s.board r' c').state = CellState.hidden →
        (getCell s'.board r' c').state = CellState.revealed →
        (getCell s.board r' c').neighborMines = 0 →
        ∀ p ∈ neighborList s.config.rows s.config.cols r' c',
          (getCell s'.board p.1 p.2).state ≠ CellState.hidden) ∧
      (s'.status = MStatus.won → NoHiddenNonMine s')

/-- The C7 scenario: on a fresh 5x5 board with one mine, flag cell (0,1)
and then click (4,4); the identity shuffle puts the single mine at (0,0). -/
def flagThenReveal : Option (MsState × Bool) :=
  match toggleFlag (createInitialState ⟨5, 5, 1⟩) 0 1 with
  | some (s1, _) => revealCell (fun l => l) s1 4 4
  | none => none


/-- The state `flagThenReveal` computes: the whole board is revealed except
the mine at (0,0), still hidden, and the flagged (0,1), which the flood
skipped even though it borders the zero region. -/
def c7final : MsState :=
  { status := MStatus.playing
    board :=
      [[⟨true, 0, CellState.hidden⟩, ⟨false, 1, CellState.flagged⟩, ⟨false, 0, CellState.revealed⟩, ⟨false, 0, CellState.revealed⟩, ⟨false, 0, CellState.revealed⟩],
       [⟨false, 1, CellState.revealed⟩, ⟨false, 1, CellState.revealed⟩, ⟨false, 0, CellState.revealed⟩, ⟨false, 0, CellState.revealed⟩, ⟨false, 0, CellState.revealed⟩],
       [⟨false, 0, CellState.revealed⟩, ⟨false, 0, CellState.revealed⟩, ⟨false, 0, CellState.revealed⟩, ⟨false, 0, CellState.revealed⟩, ⟨false, 0, CellState.revealed⟩],
       [⟨false, 0, CellState.revealed⟩, ⟨false, 0, CellState.revealed⟩, ⟨false, 0, CellState.revealed⟩, ⟨false, 0, CellState.revealed⟩, ⟨false, 0, CellState.revealed⟩],
       [⟨false, 0, CellState.revealed⟩, ⟨false, 0, CellState.revealed⟩, ⟨false, 0, CellState.revealed⟩, ⟨false, 0, CellState.revealed⟩, ⟨false, 0, CellState.revealed⟩]]
    config := ⟨5, 5, 1⟩
    remainingMines := 0
    flaggedMines := 1
    revealedCells := 23 }

/-- A 2x2 mid-game witness state: one mine at (0,0), correct neighbour
counts, everything hidden. -/
def c7midState : MsState :=
  { status := MStatus.playing
    board := [[⟨true, 0, CellState.hidden⟩, ⟨false, 1, CellState.hidden⟩],
      [⟨false, 1, CellState.hidden⟩, ⟨false, 1, CellState.hidden⟩]]
    config := ⟨2, 2, 1⟩
    remainingMines := 1
    flaggedMines := 0
    revealedCells := 0 }

end Minesweeper

/-! ## Theorems -/

namespace Game2048

lemma mergeScan_cons (a b : Nat) (rest : List Nat) :
    mergeScan (a :: b :: rest) =
      if a = b then
        ((a + a) :: (mergeScan (0 :: rest)).1, (a + a) + (mergeScan (0 :: rest)).2)
      else
        (a :: (mergeScan (b :: rest)).1, (mergeScan (b :: rest)).2) := rfl

lemma mergeScan_zero_cons (rest : List Nat) (h : ∀ x ∈ rest, x ≠ 0) :
    mergeScan (0 :: rest) = (0 :: (mergeScan rest).1, (mergeScan rest).2) := by
  cases rest with
  | nil => simp [mergeScan, mergeScanGo]
  | cons c rest' =>
    have hc : c ≠ 0 := h c (by simp)
    rw [mergeScan_cons]
    simp [Ne.symm hc]

lemma specMergeScan_no_zero (l : List Nat) (h : ∀ x ∈ l, x ≠ 0) :
    ∀ x ∈ (specMergeScan l).1, x ≠ 0 := by
  induction l using specMergeScan.induct with
  | case1 => simp [specMergeScan]
  | case2 a =>
    intro x hx
    simp only [specMergeScan] at hx
    simp at hx
    subst hx
    exact h x (by simp)
  | case3 b rest ih =>
    intro x hx
    have hb : b ≠ 0 := h b (by simp)
    rw [specMergeScan] at hx
    simp only [if_pos rfl] at hx
    rcases List.mem_cons.mp hx with hx | hx
    · omega
    · exact ih (fun y hy => h y (by simp [hy])) x hx
  | case4 a b rest hne ih =>
    intro x hx
    rw [specMergeScan] at hx
    simp only [if_neg hne] at hx
    rcases List.mem_cons.mp hx with hx | hx
    · exact hx ▸ h a (by simp)
    · exact ih (fun y hy => h y (List.mem_cons_of_mem _ hy)) x hx

lemma mergeScan_eq_specMergeScan (l : List Nat) (h : ∀ x ∈ l, x ≠ 0) :
    (mergeScan l).1.filter (fun v => v != 0) = (specMergeScan l).1 ∧
    (mergeScan l).2 = (specMergeScan l).2 := by
  induction l using specMergeScan.induct with
  | case1 => simp [mergeScan, mergeScanGo, specMergeScan]
  | case2 a =>
    have ha : a ≠ 0 := h a (by simp)
    simp [mergeScan, mergeScanGo, specMergeScan, ha]
  | case3 b rest ih =>
    have hb : b ≠ 0 := h b (by simp)
    have hrest : ∀ x ∈ rest, x ≠ 0 := fun y hy => h y (by simp [hy])
    obtain ⟨ih1, ih2⟩ := ih hrest
    rw [mergeScan_cons, specMergeScan]
    simp only [if_pos rfl]
    rw [mergeScan_zero_cons rest hrest]
    constructor
    · simp only [List.filter_cons]
      have hbb : (b + b != 0) = true := by simp; omega
      simp [hbb, ih1]
    · simpa using ih2
  | case4 a b rest hne ih =>
    have ha : a ≠ 0 := h a (by simp)
    have hrest : ∀ x ∈ b :: rest, x ≠ 0 := fun y hy => h y (List.mem_cons_of_mem _ hy)
    obtain ⟨ih1, ih2⟩ := ih hrest
    rw [mergeScan_cons, specMergeScan]
    simp only [if_neg hne]
    constructor
    · simp only [List.filter_cons]
      have haa : (a != 0) = true := by simpa using ha
      simp [haa, ih1]
    · simpa using ih2

lemma mergeLine_eq_specLineMerge (line : List Nat) :
    mergeLine line = specLineMerge line := by
  have hzf : ∀ x ∈ line.filter (fun v => v != 0), x ≠ 0 := by
    intro x hx
    have := List.of_mem_filter hx
    simpa using this
  obtain ⟨h1, h2⟩ := mergeScan_eq_specMergeScan _ hzf
  have hnz := specMergeScan_no_zero _ hzf
  have hfil : (specMergeScan (line.filter (fun v => v != 0))).1.filter
      (fun v => v != 0) = (specMergeScan (line.filter (fun v => v != 0))).1 := by
    apply List.filter_eq_self.mpr
    intro a ha
    simpa using hnz a ha
  simp only [mergeLine, specLineMerge, h1, h2, hfil]

lemma mergeScanGo_length (fuel : Nat) :
    ∀ l : List Nat, (mergeScanGo fuel l).1.length = l.length := by
  induction fuel with
  | zero =>
    intro l
    match l with
    | [] => simp [mergeScanGo]
    | [a] => simp [mergeScanGo]
    | a :: b :: rest => simp [mergeScanGo]
  | succ n ih =>
    intro l
    match l with
    | [] => simp [mergeScanGo]
    | [a] => simp [mergeScanGo]
    | a :: b :: rest =>
      by_cases hab : a = b <;> simp [mergeScanGo, hab, ih]

lemma mergeScan_length (l : List Nat) : (mergeScan l).1.length = l.length :=
  mergeScanGo_length l.length l

lemma mergeLine_length (line : List Nat) : (mergeLine line).1.length = line.length := by
  have h1 : ((mergeScan (line.filter (fun v => v != 0))).1.filter
      (fun v => v != 0)).length ≤ line.length := by
    calc ((mergeScan (line.filter (fun v => v != 0))).1.filter
          (fun v => v != 0)).length
        ≤ (mergeScan (line.filter (fun v => v != 0))).1.length :=
          List.length_filter_le _ _
      _ = (line.filter (fun v => v != 0)).length := mergeScan_length _
      _ ≤ line.length := List.length_filter_le _ _
  simp only [mergeLine, List.length_append, List.length_replicate]
  omega

end Game2048


/-- C1: the Tile-Merge per-line move transform removes zeros, merges equal
immediate neighbours left-to-right with the single-merge-per-pair rule
(accumulating each merged value into the score), removes zeros again and pads
with zeros to the original length; right/down process reversed lines; and the
row [2,2,4,0] moved left gives [4,4,0,0] with scoreIncrease 4. -/
theorem C1_mergeLine_matches_spec :
    (∀ line : List Nat, Game2048.mergeLine line = Game2048.specLineMerge line) ∧
    (∀ size d b, Game2048.applyMove size d b = Game2048.applyMoveSpec size d b) ∧
    Game2048.mergeLine [2, 2, 4, 0] = ([4, 4, 0, 0], 4) := by
  refine ⟨Game2048.mergeLine_eq_specLineMerge, ?_, ?_⟩
  · intro size d b
    cases d <;>
      simp only [Game2048.applyMove, Game2048.applyMoveSpec,
        Game2048.mergeLine_eq_specLineMerge]
  · decide


namespace Game2048

lemma pushHistory_eq (h : List HistoryEntry) (e : HistoryEntry) :
    pushHistory h e = e :: (if 10 ≤ h.length then h.dropLast else h) := by
  unfold pushHistory
  by_cases hlen : 10 < (e :: h).length
  · have hne : h ≠ [] := by
      intro hh
      subst hh
      simp at hlen
    simp only [if_pos hlen, List.dropLast_cons_of_ne_nil hne]
    rw [if_pos (by simp at hlen; omega)]
  · simp only [if_neg hlen]
    rw [if_neg (by simp at hlen; omega)]

end Game2048

/-- C6: from a playing state, a move reported as `moved = true` followed
immediately by `undo` returns true and restores the board's cell values, the
score and the moveCount to their exact pre-move values. -/
theorem C6_undo_after_move (cfg : Game2048.GameConfig) (rand : Game2048.SpawnRand)
    (s : Game2048.GState) (d : Game2048.Direction)
    (hst : s.status = Game2048.GStatus.playing)
    (hmv : (Game2048.move cfg rand s d).2.moved = true) :
    (Game2048.undo (Game2048.move cfg rand s d).1).2 = true ∧
    (Game2048.undo (Game2048.move cfg rand s d).1).1.board = s.board ∧
    (Game2048.undo (Game2048.move cfg rand s d).1).1.score = s.score ∧
    (Game2048.undo (Game2048.move cfg rand s d).1).1.moveCount = s.moveCount := by
  by_cases hb : Game2048.boardsEqualB cfg.boardSize s.board
      (Game2048.applyMove cfg.boardSize d s.board).1
  · simp [Game2048.move, hst, hb] at hmv
  · simp [Game2048.move, hst, hb, Game2048.undo, Game2048.pushHistory_eq]

/-- C6 witness: a concrete successful move followed by an undo. -/
theorem C6_witness :
    (Game2048.move Game2048.DEFAULT_CONFIG ⟨0, false⟩ Game2048.preWinState
        Game2048.Direction.left).2.moved = true ∧
    (Game2048.undo (Game2048.move Game2048.DEFAULT_CONFIG ⟨0, false⟩
        Game2048.preWinState Game2048.Direction.left).1).1.score =
      Game2048.preWinState.score := by
  have h := C6_undo_after_move Game2048.DEFAULT_CONFIG ⟨0, false⟩
    Game2048.preWinState Game2048.Direction.left rfl (by decide)
  exact ⟨by decide, h.2.2.1⟩

/-- C4 counterexample: the claim "no command other than a full reset mutates
any state field in a terminal state" fails for `undo`: after the winning move
from `preWinState` the status is `won`, yet `undo` returns true and changes
board, score and moveCount (the source's `undo` checks `canUndo` and the
history length but never the status). -/
theorem C4_counterexample :
    (Game2048.move Game2048.DEFAULT_CONFIG ⟨0, false⟩ Game2048.preWinState
        Game2048.Direction.left).1.status = Game2048.GStatus.won ∧
    (Game2048.undo (Game2048.move Game2048.DEFAULT_CONFIG ⟨0, false⟩
        Game2048.preWinState Game2048.Direction.left).1).2 = true ∧
    (Game2048.undo (Game2048.move Game2048.DEFAULT_CONFIG ⟨0, false⟩
        Game2048.preWinState Game2048.Direction.left).1).1.score ≠
      (Game2048.move Game2048.DEFAULT_CONFIG ⟨0, false⟩ Game2048.preWinState
        Game2048.Direction.left).1.score := by
  decide

/-- C4 amended: in a terminal (`won`/`lost`) state `move` is a complete no-op
returning `moved = false`, and `undo` is a no-op exactly when `canUndo` is
unset or the history is empty; otherwise `undo` restores the newest history
entry's board/score/moveCount even though the status stays terminal. -/
theorem C4_amended (cfg : Game2048.GameConfig) (rand : Game2048.SpawnRand)
    (s : Game2048.GState) (d : Game2048.Direction)
    (hterm : s.status = Game2048.GStatus.won ∨ s.status = Game2048.GStatus.lost) :
    Game2048.move cfg rand s d = (s, ⟨false, 0, false⟩) ∧
    ((s.canUndo = false ∨ s.history = []) → Game2048.undo s = (s, false)) ∧
    (∀ e rest, s.canUndo = true → s.history = e :: rest →
      Game2048.undo s = ({ s with
        board := e.board
        score := e.score
        moveCount := e.moveCount
        canUndo := !rest.isEmpty
        history := rest }, true)) := by
  refine ⟨?_, ?_, ?_⟩
  · have hne : s.status ≠ Game2048.GStatus.playing := by
      rcases hterm with h | h <;> simp [h]
    simp [Game2048.move, hne]
  · rintro (h | h) <;> simp [Game2048.undo, h]
  · intro e rest hcu hh
    simp [Game2048.undo, hcu, hh]

/-- C4 witness: the amended statement at a concrete `won` state. -/
theorem C4_witness :
    Game2048.move Game2048.DEFAULT_CONFIG ⟨0, false⟩
        Game2048.wonStateWithHistory Game2048.Direction.left =
      (Game2048.wonStateWithHistory, ⟨false, 0, false⟩) ∧
    (Game2048.undo Game2048.wonStateWithHistory).2 = true := by
  have h := C4_amended Game2048.DEFAULT_CONFIG ⟨0, false⟩
    Game2048.wonStateWithHistory Game2048.Direction.left (Or.inl rfl)
  refine ⟨h.1, ?_⟩
  have h3 := h.2.2 ⟨[[1024, 1024, 4, 0], [0, 0, 0, 0], [0, 0, 0, 0], [0, 0, 0, 0]], 4, 6⟩
    [] rfl rfl
  rw [h3]

/-- C5 counterexample: from a playing state whose history already holds 10
entries, a rejected move (no cell value changes) does not leave the history
stack unchanged: `saveToHistory` pushes the snapshot and evicts the oldest
entry, and the subsequent pop removes only the pushed snapshot, so the stack
shrinks from 10 entries to 9. -/
theorem C5_counterexample :
    (Game2048.move Game2048.DEFAULT_CONFIG ⟨0, false⟩ Game2048.fullHistoryState
        Game2048.Direction.left).2.moved = false ∧
    (Game2048.move Game2048.DEFAULT_CONFIG ⟨0, false⟩ Game2048.fullHistoryState
        Game2048.Direction.left).1.history ≠ Game2048.fullHistoryState.history := by
  decide

/-- C5 amended: from a playing state, if the directional transform leaves
every cell value unchanged then the move returns `moved = false` and leaves
score, moveCount and the board unchanged; the history stack is unchanged when
it held at most 9 entries, and loses its oldest entry when it held 10. -/
theorem C5_amended (cfg : Game2048.GameConfig) (rand : Game2048.SpawnRand)
    (s : Game2048.GState) (d : Game2048.Direction)
    (hst : s.status = Game2048.GStatus.playing)
    (hsame : Game2048.boardsEqualB cfg.boardSize s.board
      (Game2048.applyMove cfg.boardSize d s.board).1 = true) :
    (Game2048.move cfg rand s d).2.moved = false ∧
    (Game2048.move cfg rand s d).1.score = s.score ∧
    (Game2048.move cfg rand s d).1.moveCount = s.moveCount ∧
    (Game2048.move cfg rand s d).1.board = s.board ∧
    (Game2048.move cfg rand s d).1.history =
      (if 10 ≤ s.history.length then s.history.dropLast else s.history) := by
  simp [Game2048.move, hst, hsame, Game2048.pushHistory_eq]

/-- C5 witness: the amended statement at the concrete 10-entry state. -/
theorem C5_witness :
    (Game2048.move Game2048.DEFAULT_CONFIG ⟨0, false⟩ Game2048.fullHistoryState
        Game2048.Direction.left).2.moved = false ∧
    (Game2048.move Game2048.DEFAULT_CONFIG ⟨0, false⟩ Game2048.fullHistoryState
        Game2048.Direction.left).1.score = Game2048.fullHistoryState.score := by
  have h := C5_amended Game2048.DEFAULT_CONFIG ⟨0, false⟩
    Game2048.fullHistoryState Game2048.Direction.left rfl (by decide)
  exact ⟨h.1, h.2.1⟩

namespace Game2048

lemma getD_pred {α : Type _} {P : α → Prop} (l : List α) (i : Nat) (d : α)
    (h : ∀ v ∈ l, P v) (h0 : P d) : P (l.getD i d) := by
  rw [List.getD_eq_getElem?_getD]
  cases hx : l[i]? with
  | none => simpa using h0
  | some x => simpa using h x (List.getElem?_mem hx)

lemma IsPow2Tile.double {v : Nat} (h : IsPow2Tile v) : IsPow2Tile (v + v) := by
  obtain ⟨k, rfl⟩ := h
  exact ⟨k + 1, by ring⟩

lemma IsPow2Tile.two : IsPow2Tile 2 := ⟨0, rfl⟩

lemma IsPow2Tile.four : IsPow2Tile 4 := ⟨1, rfl⟩

lemma mergeScanGo_pow (fuel : Nat) :
    ∀ l : List Nat, (∀ v ∈ l, v = 0 ∨ IsPow2Tile v) →
      ∀ v ∈ (mergeScanGo fuel l).1, v = 0 ∨ IsPow2Tile v := by
  induction fuel with
  | zero =>
    intro l h v hv
    match l, hv with
    | [], hv => simp [mergeScanGo] at hv
    | [a], hv =>
      simp only [mergeScanGo, List.mem_singleton] at hv
      exact hv ▸ h a (by simp)
    | a :: b :: rest, hv =>
      simp only [mergeScanGo] at hv
      exact h v hv
  | succ n ih =>
    intro l h v hv
    match l, hv with
    | [], hv => simp [mergeScanGo] at hv
    | [a], hv =>
      simp only [mergeScanGo, List.mem_singleton] at hv
      exact hv ▸ h a (by simp)
    | a :: b :: rest, hv =>
      by_cases hab : a = b
      · simp only [mergeScanGo, if_pos hab] at hv
        rcases List.mem_cons.mp hv with rfl | hv
        · rcases h a (by simp) with h0 | hp
          · subst h0; simp
          · exact Or.inr hp.double
        · refine ih (0 :: rest) ?_ v hv
          intro w hw
          rcases List.mem_cons.mp hw with rfl | hw
          · exact Or.inl rfl
          · exact h w (by simp [hw])
      · simp only [mergeScanGo, if_neg hab] at hv
        rcases List.mem_cons.mp hv with rfl | hv
        · exact h v (by simp)
        · refine ih (b :: rest) ?_ v hv
          intro w hw
          exact h w (List.mem_cons_of_mem _ hw)

lemma mergeLine_pow (line : List Nat)
    (h : ∀ v ∈ line, v = 0 ∨ IsPow2Tile v) :
    ∀ v ∈ (mergeLine line).1, v = 0 ∨ IsPow2Tile v := by
  intro v hv
  simp only [mergeLine, List.mem_append] at hv
  rcases hv with hv | hv
  · have hv' := List.of_mem_filter hv
    have hvm := List.mem_of_mem_filter hv
    refine mergeScanGo_pow _ _ ?_ v hvm
    intro w hw
    exact h w (List.mem_of_mem_filter hw)
  · exact Or.inl (List.eq_of_mem_replicate hv)

lemma boardRow_ok {b : List (List Nat)} (hb : BoardOk b) (i : Nat) :
    ∀ v ∈ b.getD i [], v = 0 ∨ IsPow2Tile v := by
  refine getD_pred (P := fun row => ∀ v ∈ row, v = 0 ∨ IsPow2Tile v) b i [] ?_ (by simp)
  intro row hrow v hv
  by_cases h0 : v = 0
  · exact Or.inl h0
  · exact Or.inr (hb row hrow v hv h0)

lemma colLine_ok {b : List (List Nat)} (hb : BoardOk b) (size j : Nat) :
    ∀ v ∈ colLine size b j, v = 0 ∨ IsPow2Tile v := by
  intro v hv
  simp only [colLine, List.mem_map] at hv
  obtain ⟨i, _, rfl⟩ := hv
  exact getD_pred _ _ _ (boardRow_ok hb i) (Or.inl rfl)

lemma applyMove_boardOk (size : Nat) (d : Direction) (b : List (List Nat))
    (hb : BoardOk b) : BoardOk (applyMove size d b).1 := by
  have hline : ∀ X : List Nat, (∀ v ∈ X, v = 0 ∨ IsPow2Tile v) → ∀ j : Nat,
      (mergeLine X).1.getD j 0 = 0 ∨ IsPow2Tile ((mergeLine X).1.getD j 0) :=
    fun X hX j => getD_pred _ _ _ (mergeLine_pow X hX) (Or.inl rfl)
  intro row hrow v hv hne
  cases d with
  | left =>
    simp only [applyMove, List.mem_map] at hrow
    obtain ⟨i, _, rfl⟩ := hrow
    simp only [List.mem_map] at hv
    obtain ⟨j, _, rfl⟩ := hv
    have hmerged : ∀ p ∈ (List.range size).map (fun i => mergeLine (b.getD i [])),
        ∀ w ∈ p.1, w = 0 ∨ IsPow2Tile w := by
      intro p hp
      simp only [List.mem_map] at hp
      obtain ⟨i', _, rfl⟩ := hp
      exact mergeLine_pow _ (boardRow_ok hb i')
    have := getD_pred (P := fun p : List Nat × Nat => ∀ w ∈ p.1, w = 0 ∨ IsPow2Tile w)
      _ i ([], 0) hmerged (by simp)
    rcases getD_pred _ j 0 this (Or.inl rfl) with h0 | hp
    · exact absurd h0 hne
    · exact hp
  | right =>
    simp only [applyMove, List.mem_map] at hrow
    obtain ⟨i, _, rfl⟩ := hrow
    simp only [List.mem_map] at hv
    obtain ⟨j, _, rfl⟩ := hv
    have hmerged : ∀ p ∈ (List.range size).map (fun i => mergeLine (b.getD i []).reverse),
        ∀ w ∈ p.1, w = 0 ∨ IsPow2Tile w := by
      intro p hp
      simp only [List.mem_map] at hp
      obtain ⟨i', _, rfl⟩ := hp
      refine mergeLine_pow _ ?_
      intro w hw
      exact boardRow_ok hb i' w (List.mem_reverse.mp hw)
    have hm := getD_pred (P := fun p : List Nat × Nat => ∀ w ∈ p.1, w = 0 ∨ IsPow2Tile w)
      _ i ([], 0) hmerged (by simp)
    have hrev : ∀ w ∈ ((((List.range size).map
        (fun i => mergeLine (b.getD i []).reverse)).getD i ([], 0)).1).reverse,
        w = 0 ∨ IsPow2Tile w := by
      intro w hw
      exact hm w (List.mem_reverse.mp hw)
    rcases getD_pred _ j 0 hrev (Or.inl rfl) with h0 | hp
    · exact absurd h0 hne
    · exact hp
  | up =>
    simp only [applyMove, List.mem_map] at hrow
    obtain ⟨i, _, rfl⟩ := hrow
    simp only [List.mem_map] at hv
    obtain ⟨j, _, rfl⟩ := hv
    have hmerged : ∀ p ∈ (List.range size).map (fun j => mergeLine (colLine size b j)),
        ∀ w ∈ p.1, w = 0 ∨ IsPow2Tile w := by
      intro p hp
      simp only [List.mem_map] at hp
      obtain ⟨j', _, rfl⟩ := hp
      exact mergeLine_pow _ (colLine_ok hb size j')
    have hm := getD_pred (P := fun p : List Nat × Nat => ∀ w ∈ p.1, w = 0 ∨ IsPow2Tile w)
      _ j ([], 0) hmerged (by simp)
    rcases getD_pred _ i 0 hm (Or.inl rfl) with h0 | hp
    · exact absurd h0 hne
    · exact hp
  | down =>
    simp only [applyMove, List.mem_map] at hrow
    obtain ⟨i, _, rfl⟩ := hrow
    simp only [List.mem_map] at hv
    obtain ⟨j, _, rfl⟩ := hv
    have hmerged : ∀ p ∈ (List.range size).map
        (fun j => mergeLine ((colLine size b j).reverse)),
        ∀ w ∈ p.1, w = 0 ∨ IsPow2Tile w := by
      intro p hp
      simp only [List.mem_map] at hp
      obtain ⟨j', _, rfl⟩ := hp
      refine mergeLine_pow _ ?_
      intro w hw
      exact colLine_ok hb size j' w (List.mem_reverse.mp hw)
    have hm := getD_pred (P := fun p : List Nat × Nat => ∀ w ∈ p.1, w = 0 ∨ IsPow2Tile w)
      _ j ([], 0) hmerged (by simp)
    rcases getD_pred _ (size - 1 - i) 0 hm (Or.inl rfl) with h0 | hp
    · exact absurd h0 hne
    · exact hp

lemma setCellVal_boardOk {b : List (List Nat)} (hb : BoardOk b) (r c v : Nat)
    (hv : IsPow2Tile v) : BoardOk (setCellVal b r c v) := by
  intro row hrow w hw hne
  rcases List.mem_or_eq_of_mem_set hrow with hrow | rfl
  · exact hb row hrow w hw hne
  · rcases List.mem_or_eq_of_mem_set hw with hw | rfl
    · rcases boardRow_ok hb r w hw with h0 | hp
      · exact absurd h0 hne
      · exact hp
    · exact hv

lemma addRandomCell_boardOk (size : Nat) (rand : SpawnRand) {b : List (List Nat)}
    (hb : BoardOk b) : BoardOk (addRandomCell size rand b) := by
  simp only [addRandomCell]
  split
  · exact hb
  · refine setCellVal_boardOk hb _ _ _ ?_
    cases hr : rand.four <;> simp only [hr, if_pos, if_neg, Bool.false_eq_true,
      if_false, if_true]
    · exact IsPow2Tile.two
    · exact IsPow2Tile.four

lemma pushHistory_mem {h : List HistoryEntry} {e x : HistoryEntry}
    (hx : x ∈ pushHistory h e) : x = e ∨ x ∈ h := by
  rw [pushHistory_eq] at hx
  rcases List.mem_cons.mp hx with rfl | hx
  · exact Or.inl rfl
  · right
    split at hx
    · exact List.dropLast_subset _ hx
    · exact hx

lemma move_stateOk (cfg : GameConfig) (rand : SpawnRand) (s : GState)
    (d : Direction) (hs : StateOk s) : StateOk (move cfg rand s d).1 := by
  obtain ⟨hb, hh⟩ := hs
  unfold move
  by_cases hst : s.status ≠ GStatus.playing
  · simp only [if_pos hst]
    exact ⟨hb, hh⟩
  · simp only [if_neg hst]
    by_cases hmv : !(boardsEqualB cfg.boardSize s.board
        (applyMove cfg.boardSize d s.board).1)
    · simp only [if_pos hmv]
      refine ⟨addRandomCell_boardOk _ _ (applyMove_boardOk _ _ _ hb), ?_⟩
      intro e he
      rcases pushHistory_mem he with rfl | he
      · exact hb
      · exact hh e he
    · simp only [if_neg hmv]
      refine ⟨hb, ?_⟩
      intro e he
      have he' := List.drop_subset _ _ he
      rcases pushHistory_mem he' with rfl | he'
      · exact hb
      · exact hh e he'

lemma undo_stateOk (s : GState) (hs : StateOk s) : StateOk (undo s).1 := by
  obtain ⟨hb, hh⟩ := hs
  unfold undo
  split
  · exact ⟨hb, hh⟩
  · split
    · exact ⟨hb, hh⟩
    · rename_i e rest heq
      exact ⟨hh e (by rw [heq]; simp),
        fun x hx => hh x (by rw [heq]; exact List.mem_cons_of_mem _ hx)⟩

lemma continueGame_stateOk (s : GState) (hs : StateOk s) :
    StateOk (continueGame s) := by
  unfold continueGame
  split <;> exact hs

lemma startNewGame_stateOk (cfg : GameConfig) (bestScore bestTile : Nat)
    (rands : List SpawnRand) : StateOk (startNewGame cfg bestScore bestTile rands) := by
  unfold startNewGame createInitialState
  refine ⟨?_, by simp⟩
  simp only
  have hbase : BoardOk (createEmptyBoard cfg.boardSize) := by
    intro row hrow v hv hne
    unfold createEmptyBoard at hrow
    have := List.eq_of_mem_replicate hrow
    subst this
    exact absurd (List.eq_of_mem_replicate hv) hne
  generalize createEmptyBoard cfg.boardSize = b0 at hbase ⊢
  generalize List.range cfg.initialCells = idxs
  induction idxs generalizing b0 with
  | nil => simpa using hbase
  | cons i rest ih =>
    simp only [List.foldl_cons]
    exact ih _ (addRandomCell_boardOk _ _ hbase)

lemma reachable_stateOk (cfg : GameConfig) (s : GState)
    (h : Reachable cfg s) : StateOk s := by
  induction h with
  | start bestScore bestTile rands => exact startNewGame_stateOk _ _ _ _
  | move s rand d _ ih => exact move_stateOk _ _ _ _ ih
  | undo s _ ih => exact undo_stateOk _ ih
  | continueGame s _ ih => exact continueGame_stateOk _ ih

end Game2048

/-- C8: in every Tile-Merge state reachable from `startNewGame` by any
sequence of `move`, `undo` and `continueGame` (over all random outcomes),
every non-zero board cell value is a power of two that is at least 2. -/
theorem C8_reachable_pow2 (cfg : Game2048.GameConfig) (s : Game2048.GState)
    (h : Game2048.Reachable cfg s) :
    ∀ row ∈ s.board, ∀ v ∈ row, v ≠ 0 → (∃ k : Nat, v = 2 ^ k) ∧ 2 ≤ v := by
  intro row hrow v hv hne
  obtain ⟨k, rfl⟩ := (Game2048.reachable_stateOk cfg s h).1 row hrow v hv hne
  refine ⟨⟨k + 1, rfl⟩, ?_⟩
  calc 2 = 2 ^ 1 := by norm_num
    _ ≤ 2 ^ (k + 1) := Nat.pow_le_pow_right (by norm_num) (by omega)

/-- C8 witness: the invariant applied to the concrete opening state that
spawns a 2 at (0,0) and a 4 at (0,1). -/
theorem C8_witness :
    [2, 4, 0, 0] ∈ (Game2048.startNewGame Game2048.DEFAULT_CONFIG 0 0
      [⟨0, false⟩, ⟨0, true⟩]).board ∧
    ((∃ k : Nat, (4 : Nat) = 2 ^ k) ∧ 2 ≤ (4 : Nat)) := by
  refine ⟨by decide, ?_⟩
  exact C8_reachable_pow2 Game2048.DEFAULT_CONFIG _
    (Game2048.Reachable.start 0 0 [⟨0, false⟩, ⟨0, true⟩])
    [2, 4, 0, 0] (by decide) 4 (by decide) (by decide)

namespace Tetris

lemma tryKicks_eq_find (board : List (List (Option PieceType))) (rp : TetrisPiece) :
    ∀ offs : List (Int × Int),
      tryKicks board rp offs =
        (offs.map (fun o => (⟨rp.position.x + o.1, rp.position.y + o.2⟩ : Position))).find?
          (fun pos => canPlacePiece board rp pos) := by
  intro offs
  induction offs with
  | nil => simp [tryKicks]
  | cons o rest ih =>
    obtain ⟨dx, dy⟩ := o
    by_cases h : canPlacePiece board rp ⟨rp.position.x + dx, rp.position.y + dy⟩ <;>
      simp [tryKicks, List.find?_cons, h, ih]

lemma rotateCmd_eq_find (s : TetrisState) (p : TetrisPiece)
    (hst : s.status = TStatus.playing) (hp : s.currentPiece = some p) :
    rotateCmd s =
      (match (candidatePositions (rotatePiece p)).find?
          (fun pos => canPlacePiece s.board (rotatePiece p) pos) with
        | some pos => { s with currentPiece := some { rotatePiece p with position := pos } }
        | none => s) := by
  simp only [rotateCmd, hst, ne_eq, not_true_eq_false, if_false, hp,
    candidatePositions, List.find?_cons]
  by_cases hbase : canPlacePiece s.board (rotatePiece p) (rotatePiece p).position
  · simp [hbase]
  · simp only [hbase, if_false, Bool.false_eq_true]
    rw [tryKicks_eq_find]

end Tetris

/-- C9: from a playing Block-Stack state with a current piece, the rotate
command replaces the piece by its next rotation state placed at the first
candidate position - the unmodified position, then the kicks (-1,0), (1,0),
(0,-1), (-1,-1), (1,-1) in exactly that order - that satisfies the collision
predicate (every filled shape cell in-bounds and empty); if none does, the
state is unchanged.  In particular, a rotation blocked in place but legal
after the (-1,0) kick moves the piece one column left. -/
theorem C9_rotate_wall_kick :
    (∀ (s : Tetris.TetrisState) (p : Tetris.TetrisPiece),
      s.status = Tetris.TStatus.playing → s.currentPiece = some p →
      Tetris.rotateCmd s =
        (match (Tetris.candidatePositions (Tetris.rotatePiece p)).find?
            (fun pos => Tetris.canPlacePiece s.board (Tetris.rotatePiece p) pos) with
          | some pos =>
            { s with currentPiece := some { Tetris.rotatePiece p with position := pos } }
          | none => s)) ∧
    (∀ (s : Tetris.TetrisState) (p : Tetris.TetrisPiece),
      s.status = Tetris.TStatus.playing → s.currentPiece = some p →
      Tetris.canPlacePiece s.board (Tetris.rotatePiece p)
        (Tetris.rotatePiece p).position = false →
      Tetris.canPlacePiece s.board (Tetris.rotatePiece p)
        ⟨(Tetris.rotatePiece p).position.x + (-1),
         (Tetris.rotatePiece p).position.y + 0⟩ = true →
      ∃ q, (Tetris.rotateCmd s).currentPiece = some q ∧
        q.position.x = p.position.x - 1 ∧ q.position.y = p.position.y) := by
  constructor
  · exact fun s p hst hp => Tetris.rotateCmd_eq_find s p hst hp
  · intro s p hst hp hbase hkick
    rw [Tetris.rotateCmd_eq_find s p hst hp]
    have hrp : (Tetris.rotatePiece p).position = p.position := rfl
    simp only [Tetris.candidatePositions, Tetris.kickOffsets, List.map_cons,
      List.find?_cons, hbase, hkick]
    refine ⟨_, rfl, ?_, ?_⟩ <;> (simp [hrp]; try omega)

/-- C9 witness: the concrete blocked-then-kicked rotation of a T piece. -/
theorem C9_witness :
    ∃ q, (Tetris.rotateCmd Tetris.kickDemoState).currentPiece = some q ∧
      q.position.x = (1 : Int) - 1 ∧ q.position.y = (0 : Int) :=
  C9_rotate_wall_kick.2 Tetris.kickDemoState
    ⟨Tetris.PieceType.T, ⟨1, 0⟩, 0, [[0, 1, 0], [1, 1, 1], [0, 0, 0]]⟩
    rfl rfl (by decide) (by decide)

namespace Tetris

lemma clearScan_eq (board : List (List (Option PieceType))) :
    clearScan board =
      (board.filter (fun r => !isComplete r),
       board.countP (fun r => isComplete r)) := by
  induction board with
  | nil => simp [clearScan]
  | cons r rest ih =>
    by_cases h : isComplete r <;>
      simp [clearScan, h, ih, List.countP_cons, List.filter_cons]

lemma filterNot_length_eq (board : List (List (Option PieceType))) :
    (board.filter (fun r => !isComplete r)).length =
      board.length - board.countP (fun r => isComplete r) := by
  induction board with
  | nil => simp
  | cons r rest ih =>
    have hle : rest.countP (fun r => isComplete r) ≤ rest.length :=
      List.countP_le_length _
    by_cases h : isComplete r <;>
      (simp [List.filter_cons, List.countP_cons, h, ih]; try omega)

end Tetris

/-- C10: `clearCompleteLines` removes exactly the complete rows, keeps the
remaining rows in order (each shifted down by the number of cleared rows
below it), pads that many empty rows at the top so the height is unchanged,
and reports the number of cleared rows; in particular a height-20 board whose
rows 18 and 19 are the only complete rows becomes two empty rows on top of
the original rows 0-17, with clearedLines = 2. -/
theorem C10_clear_complete_lines :
    (∀ board : List (List (Option Tetris.PieceType)),
      (Tetris.clearCompleteLines board).2 =
        board.countP (fun r => Tetris.isComplete r) ∧
      (Tetris.clearCompleteLines board).1 =
        List.replicate (board.countP (fun r => Tetris.isComplete r))
          (List.replicate (board.headD []).length none) ++
          board.filter (fun r => !Tetris.isComplete r) ∧
      (Tetris.clearCompleteLines board).1.length = board.length) ∧
    (∀ (xs : List (List (Option Tetris.PieceType)))
        (r18 r19 : List (Option Tetris.PieceType)),
      xs.length = 18 → Tetris.isComplete r18 = true → Tetris.isComplete r19 = true →
      (∀ r ∈ xs, Tetris.isComplete r = false) →
      Tetris.clearCompleteLines (xs ++ [r18, r19]) =
        (List.replicate 2
            (List.replicate ((xs ++ [r18, r19]).headD []).length none) ++ xs,
         2)) := by
  have hmain : ∀ board : List (List (Option Tetris.PieceType)),
      (Tetris.clearCompleteLines board).2 =
        board.countP (fun r => Tetris.isComplete r) ∧
      (Tetris.clearCompleteLines board).1 =
        List.replicate (board.countP (fun r => Tetris.isComplete r))
          (List.replicate (board.headD []).length none) ++
          board.filter (fun r => !Tetris.isComplete r) ∧
      (Tetris.clearCompleteLines board).1.length = board.length := by
    intro board
    have hcount : board.countP (fun r => Tetris.isComplete r) ≤ board.length :=
      List.countP_le_length _
    refine ⟨by simp [Tetris.clearCompleteLines, Tetris.clearScan_eq], ?_, ?_⟩
    · have heq : board.length -
          (board.length - board.countP (fun r => Tetris.isComplete r)) =
          board.countP (fun r => Tetris.isComplete r) := by omega
      simp [Tetris.clearCompleteLines, Tetris.clearScan_eq,
        Tetris.filterNot_length_eq, heq]
    · simp [Tetris.clearCompleteLines, Tetris.clearScan_eq,
        Tetris.filterNot_length_eq]
  refine ⟨hmain, ?_⟩
  intro xs r18 r19 hlen h18 h19 hxs
  have hcount : (xs ++ [r18, r19]).countP (fun r => Tetris.isComplete r) = 2 := by
    rw [List.countP_append]
    have h0 : xs.countP (fun r => Tetris.isComplete r) = 0 :=
      List.countP_eq_zero.mpr (fun r hr => by simp [hxs r hr])
    simp [h0, List.countP_cons, h18, h19]
  have hfil : (xs ++ [r18, r19]).filter (fun r => !Tetris.isComplete r) = xs := by
    rw [List.filter_append]
    have h1 : xs.filter (fun r => !Tetris.isComplete r) = xs :=
      List.filter_eq_self.mpr (fun r hr => by simp [hxs r hr])
    simp [h1, List.filter_cons, h18, h19]
  obtain ⟨hc2, hc1, _⟩ := hmain (xs ++ [r18, r19])
  have : Tetris.clearCompleteLines (xs ++ [r18, r19]) =
      ((Tetris.clearCompleteLines (xs ++ [r18, r19])).1,
       (Tetris.clearCompleteLines (xs ++ [r18, r19])).2) := rfl
  rw [this, hc1, hc2, hcount, hfil]

/-- C10 witness: clearing the two full bottom rows of a concrete height-20
board of otherwise holed rows. -/
theorem C10_witness :
    Tetris.clearCompleteLines (Tetris.stack18 ++ [Tetris.fullRow10, Tetris.fullRow10]) =
      (List.replicate 2 (List.replicate 10 (none : Option Tetris.PieceType)) ++
        Tetris.stack18, 2) := by
  have h := C10_clear_complete_lines.2 Tetris.stack18 Tetris.fullRow10 Tetris.fullRow10
    (by decide) (by decide) (by decide) (by decide)
  rw [h]
  decide

/-- C3: the claim that `revealCell` is a throw-free no-op on out-of-range
coordinates fails on the code: the source reads `board[row][col]` without any
bounds check, so in any non-terminal state (for example the freshly created
beginner 9x9 board, in idle status) an out-of-range coordinate dereferences
`undefined` and throws a TypeError (modelled by `none`) instead of returning
false, for every random outcome. -/
theorem C3_out_of_range_reveal_throws :
    (∀ shuffle, Minesweeper.revealCell shuffle
      (Minesweeper.createInitialState ⟨9, 9, 10⟩) 9 0 = none) ∧
    (Minesweeper.createInitialState ⟨9, 9, 10⟩).status = Minesweeper.MStatus.idle := by
  exact ⟨fun shuffle => rfl, rfl⟩

namespace Minesweeper

lemma sum_set_nat (l : List Nat) (i : Nat) (x : Nat) (h : i < l.length) :
    (l.set i x).sum + l[i] = l.sum + x := by
  induction l generalizing i with
  | nil => simp at h
  | cons a t ih =>
    cases i with
    | zero => simp [List.set_cons_zero]; omega
    | succ n =>
      have hn : n < t.length := by simpa using h
      have := ih n hn
      simp only [List.set_cons_succ, List.sum_cons, List.getElem_cons_succ]
      omega

lemma countP_set {α : Type _} (p : α → Bool) (l : List α) (i : Nat) (x : α)
    (h : i < l.length) :
    (l.set i x).countP p + (if p l[i] then 1 else 0) =
      l.countP p + (if p x then 1 else 0) := by
  induction l generalizing i with
  | nil => simp at h
  | cons a t ih =>
    cases i with
    | zero =>
      simp only [List.set_cons_zero, List.countP_cons, List.getElem_cons_zero]
      by_cases hpa : p a <;> by_cases hpx : p x <;> (simp [hpa, hpx]; try omega)
    | succ n =>
      have hn : n < t.length := by simpa using h
      have := ih n hn
      simp only [List.set_cons_succ, List.countP_cons, List.getElem_cons_succ]
      by_cases hpa : p a <;> simp [hpa] <;> omega

lemma getD_map {α β : Type _} (f : α → β) (l : List α) (i : Nat) (d : α) :
    (l.map f).getD i (f d) = f (l.getD i d) := by
  rw [List.getD_eq_getElem?_getD, List.getD_eq_getElem?_getD, List.getElem?_map]
  cases l[i]? <;> simp

lemma set_getD_self {α : Type _} (d : α) :
    ∀ (l : List α) (i : Nat), l.set i (l.getD i d) = l := by
  intro l
  induction l with
  | nil => intro i; simp
  | cons a t ih =>
    intro i
    cases i with
    | zero => simp
    | succ n =>
      simp only [List.set_cons_succ, List.getD_cons_succ]
      rw [ih n]

lemma cellAt?_eq_getCell {b : List (List MsCell)} {rows cols r c : Nat}
    (hd : Dims b rows cols) (hr : r < rows) (hc : c < cols) :
    cellAt? b r c = some (getCell b r c) := by
  obtain ⟨hlen, hrows⟩ := hd
  have hr' : r < b.length := by omega
  have hrow : b[r] ∈ b := List.getElem_mem _
  have hcl : c < b[r].length := by rw [hrows _ hrow]; exact hc
  simp [cellAt?, getCell, List.getElem?_eq_getElem hr', List.getElem?_eq_getElem hcl,
    List.getD_eq_getElem?_getD]

lemma getCell_eq_getElem {b : List (List MsCell)} {r c : Nat}
    (hr : r < b.length) (hc : c < b[r].length) :
    getCell b r c = b[r][c] := by
  simp [getCell, List.getD_eq_getElem?_getD, List.getElem?_eq_getElem hr,
    List.getElem?_eq_getElem hc]

lemma getD_mem_of_lt {α : Type _} (l : List α) (i : Nat) (d : α)
    (h : i < l.length) : l.getD i d ∈ l := by
  rw [List.getD_eq_getElem?_getD, List.getElem?_eq_getElem h]
  exact List.getElem_mem _

lemma modifyCell_dims {b : List (List MsCell)} {rows cols : Nat}
    (hd : Dims b rows cols) (r c : Nat) (hr : r < rows)
    (f : MsCell → MsCell) :
    Dims (modifyCell b r c f) rows cols := by
  obtain ⟨hlen, hrows⟩ := hd
  refine ⟨by simp [modifyCell, hlen], ?_⟩
  intro row hrow
  rcases List.mem_or_eq_of_mem_set hrow with hrow | rfl
  · exact hrows _ hrow
  · rw [List.length_set]
    exact hrows _ (getD_mem_of_lt b r [] (by omega))

end Minesweeper

namespace Minesweeper

lemma getD_eq_getElem_of_lt {α : Type _} (l : List α) (i : Nat) (d : α)
    (h : i < l.length) : l.getD i d = l[i] := by
  rw [List.getD_eq_getElem?_getD, List.getElem?_eq_getElem h]
  rfl

lemma skeleton_getD (bb : List (List MsCell)) (r c : Nat) :
    ((skeleton bb).getD r []).getD c (false, 0) =
      ((getCell bb r c).isMine, (getCell bb r c).neighborMines) := by
  have e1 : (skeleton bb).getD r ([] : List (Bool × Nat)) =
      (bb.getD r []).map (fun cell => (cell.isMine, cell.neighborMines)) := by
    show (bb.map (fun row => row.map (fun cell => (cell.isMine, cell.neighborMines)))).getD r
      ((fun row : List MsCell => row.map (fun cell => (cell.isMine, cell.neighborMines))) []) = _
    exact getD_map _ bb r []
  rw [e1]
  show ((bb.getD r []).map (fun cell => (cell.isMine, cell.neighborMines))).getD c
    ((fun cell : MsCell => (cell.isMine, cell.neighborMines)) freshCell) = _
  rw [getD_map]
  rfl

lemma getCell_mine_of_skeleton {b b' : List (List MsCell)}
    (hs : skeleton b' = skeleton b) (r c : Nat) :
    (getCell b' r c).isMine = (getCell b r c).isMine := by
  have h1 := skeleton_getD b' r c
  have h2 := skeleton_getD b r c
  rw [hs] at h1
  have := h1.symm.trans h2
  exact congrArg Prod.fst this

lemma countMines_eq_of_skeleton {b b' : List (List MsCell)}
    (hs : skeleton b' = skeleton b) : countMines b' = countMines b := by
  have hgen : ∀ bb : List (List MsCell), countMines bb =
      ((skeleton bb).map (fun row => row.countP (fun q => q.1))).sum := by
    intro bb
    simp [countMines, skeleton, List.map_map, List.countP_map, Function.comp_def]
  rw [hgen, hgen, hs]

lemma dims_of_skeleton_eq {b b' : List (List MsCell)} {rows cols : Nat}
    (hs : skeleton b' = skeleton b) (hd : Dims b rows cols) :
    Dims b' rows cols := by
  obtain ⟨hlen, hrows⟩ := hd
  have hlen' : b'.length = b.length := by
    have := congrArg List.length hs
    simpa [skeleton] using this
  refine ⟨by omega, ?_⟩
  intro row hrow
  obtain ⟨i, hi, hrowi⟩ := List.mem_iff_getElem.mp hrow
  have hgd : b'.getD i [] = row := by
    rw [getD_eq_getElem_of_lt _ _ _ hi]
    exact hrowi
  have h1 : (skeleton b').getD i [] =
      (b'.getD i []).map (fun cell => (cell.isMine, cell.neighborMines)) := by
    show (b'.map (fun row => row.map (fun cell => (cell.isMine, cell.neighborMines)))).getD i
      ((fun row : List MsCell =>
        row.map (fun cell => (cell.isMine, cell.neighborMines))) []) = _
    exact getD_map _ b' i []
  have h2 : (skeleton b).getD i [] =
      (b.getD i []).map (fun cell => (cell.isMine, cell.neighborMines)) := by
    show (b.map (fun row => row.map (fun cell => (cell.isMine, cell.neighborMines)))).getD i
      ((fun row : List MsCell =>
        row.map (fun cell => (cell.isMine, cell.neighborMines))) []) = _
    exact getD_map _ b i []
  have heq : (b'.getD i []).map (fun cell => (cell.isMine, cell.neighborMines)) =
      (b.getD i []).map (fun cell => (cell.isMine, cell.neighborMines)) := by
    rw [← h1, ← h2, hs]
  have hlrow : (b'.getD i []).length = (b.getD i []).length := by
    have := congrArg List.length heq
    simpa using this
  rw [← hgd, hlrow]
  exact hrows _ (getD_mem_of_lt b i [] (by omega))

lemma skeleton_modifyCell_of_preserve (b : List (List MsCell)) (r c : Nat)
    (f : MsCell → MsCell)
    (hmine : ∀ cl, (f cl).isMine = cl.isMine)
    (hnm : ∀ cl, (f cl).neighborMines = cl.neighborMines) :
    skeleton (modifyCell b r c f) = skeleton b := by
  unfold skeleton modifyCell
  rw [List.map_set, List.map_set]
  have hval : (((f (getCell b r c)).isMine, (f (getCell b r c)).neighborMines) :
      Bool × Nat) =
      ((b.getD r []).map (fun cell => (cell.isMine, cell.neighborMines))).getD c
        ((fun cell : MsCell => (cell.isMine, cell.neighborMines)) freshCell) := by
    rw [getD_map (fun cell : MsCell => (cell.isMine, cell.neighborMines))
      (b.getD r []) c freshCell]
    simp only [hmine, hnm]
    rfl
  rw [hval, set_getD_self]
  have hval2 : (b.getD r []).map (fun cell => (cell.isMine, cell.neighborMines)) =
      (b.map (fun row => row.map (fun cell => (cell.isMine, cell.neighborMines)))).getD r
        ((fun row : List MsCell =>
          row.map (fun cell => (cell.isMine, cell.neighborMines))) []) :=
    (getD_map _ b r []).symm
  rw [hval2, set_getD_self]

lemma skeleton_modifyCell_state (b : List (List MsCell)) (r c : Nat)
    (st : CellState) :
    skeleton (modifyCell b r c (fun cl => { cl with state := st })) =
      skeleton b :=
  skeleton_modifyCell_of_preserve b r c _ (fun _ => rfl) (fun _ => rfl)

lemma hiddenCount_modifyCell_reveal {b : List (List MsCell)} {rows cols r c : Nat}
    (hd : Dims b rows cols) (hr : r < rows) (hc : c < cols)
    (hh : (getCell b r c).state = CellState.hidden) :
    hiddenCount (modifyCell b r c
      (fun cl => { cl with state := CellState.revealed })) + 1 = hiddenCount b := by
  obtain ⟨hlen, hrows⟩ := hd
  have hrb : r < b.length := by omega
  have hrowmem : b[r] ∈ b := List.getElem_mem _
  have hcb : c < b[r].length := by rw [hrows _ hrowmem]; omega
  have hgd : b.getD r [] = b[r] := getD_eq_getElem_of_lt b r [] hrb
  have hcgd : getCell b r c = b[r][c] := getCell_eq_getElem hrb hcb
  unfold hiddenCount modifyCell
  rw [List.map_set, hgd]
  have hsum := sum_set_nat
    (b.map (fun row => row.countP (fun cell => decide (cell.state = CellState.hidden)))) r
    ((b[r].set c ((fun cl => { cl with state := CellState.revealed }) (getCell b r c))).countP
      (fun cell => decide (cell.state = CellState.hidden)))
    (by simpa using hrb)
  have hrm : r < (b.map (fun row => row.countP
      (fun cell => decide (cell.state = CellState.hidden)))).length := by
    simpa using hrb
  have hget : (b.map (fun row => row.countP
      (fun cell => decide (cell.state = CellState.hidden))))[r] =
      b[r].countP (fun cell => decide (cell.state = CellState.hidden)) := by
    simp
  rw [hget] at hsum
  have hcount := countP_set (fun cell => decide (cell.state = CellState.hidden))
    b[r] c ((fun cl => { cl with state := CellState.revealed }) (getCell b r c)) hcb
  rw [← hcgd] at hcount
  simp [hh] at hcount
  beta_reduce
  beta_reduce at hsum
  omega

lemma sum_map_le {α : Type _} (f g : α → Nat) (l : List α)
    (h : ∀ a ∈ l, f a ≤ g a) : (l.map f).sum ≤ (l.map g).sum := by
  induction l with
  | nil => simp
  | cons a t ih =>
    simp only [List.map_cons, List.sum_cons]
    have := h a (by simp)
    have := ih (fun x hx => h x (List.mem_cons_of_mem _ hx))
    omega

lemma skeleton_revealAllMines (b : List (List MsCell)) :
    skeleton (revealAllMines b) = skeleton b := by
  simp [skeleton, revealAllMines, List.map_map, Function.comp]
  intro row hrow cell hcell
  constructor <;> split <;> rfl

lemma hiddenCount_revealAllMines_le (b : List (List MsCell)) :
    hiddenCount (revealAllMines b) ≤ hiddenCount b := by
  unfold hiddenCount revealAllMines
  rw [List.map_map]
  refine sum_map_le _ _ b ?_
  intro row _
  simp only [Function.comp, List.countP_map]
  refine List.countP_mono_left ?_
  intro cell _ hcell
  simp only [Function.comp] at hcell
  split at hcell
  · simp at hcell
  · exact hcell

lemma neighborList_bounds (rows cols r c : Nat) :
    ∀ p ∈ neighborList rows cols r c, p.1 < rows ∧ p.2 < cols := by
  intro p hp
  simp only [neighborList, List.mem_flatMap, List.mem_filterMap, List.mem_filter,
    List.mem_range] at hp
  obtain ⟨a, ⟨ha, _⟩, b2, ⟨⟨hb, _⟩, hif⟩⟩ := hp
  split at hif
  · simp at hif
  · have : p = (a, b2) := by simpa using hif.symm
    subst this
    exact ⟨ha, hb⟩

lemma checkWinCondition_facts (s : MsState) :
    (checkWinCondition s).board = s.board ∧ (checkWinCondition s).config = s.config ∧
    ((checkWinCondition s).status = s.status ∨
      (checkWinCondition s).status = MStatus.won) := by
  unfold checkWinCondition
  split <;> simp

end Minesweeper

namespace Minesweeper

lemma revealListGoAux_spec (shuffle : List (Nat × Nat) → List (Nat × Nat))
    (fuel : Nat) (hQ : CellSpec shuffle fuel) :
    ∀ l s, RevealPre s → fuel > hiddenCount s.board →
      (∀ p ∈ l, p.1 < s.config.rows ∧ p.2 < s.config.cols) →
      ∃ s', revealListGoAux (revealCellGo shuffle fuel) s l = some s' ∧
        skeleton s'.board = skeleton s.board ∧ s'.config = s.config ∧
        s'.status ≠ MStatus.idle ∧ hiddenCount s'.board ≤ hiddenCount s.board := by
  intro l
  induction l with
  | nil =>
    intro s hpre hfuel _
    exact ⟨s, rfl, rfl, rfl, hpre.2, le_refl _⟩
  | cons p rest ih =>
    intro s hpre hfuel hl
    obtain ⟨hp1, hp2⟩ := hl p (by simp)
    have hcell := cellAt?_eq_getCell hpre.1 hp1 hp2
    by_cases hh : (getCell s.board p.1 p.2).state = CellState.hidden
    · obtain ⟨s', b, heq, hskel, hcfg, hst, hhc⟩ := hQ s p.1 p.2 hpre hfuel hp1 hp2
      have hdims' : Dims s'.board s'.config.rows s'.config.cols := by
        rw [hcfg]
        exact dims_of_skeleton_eq hskel hpre.1
      obtain ⟨s'', heq2, hskel2, hcfg2, hst2, hhc2⟩ := ih s' ⟨hdims', hst⟩
        (lt_of_le_of_lt hhc hfuel)
        (by
          intro q hq
          rw [hcfg]
          exact hl q (List.mem_cons_of_mem _ hq))
      refine ⟨s'', ?_, hskel2.trans hskel, hcfg2.trans hcfg, hst2,
        le_trans hhc2 hhc⟩
      rw [revealListGoAux, hcell]
      simp only [hh, if_true, heq]
      exact heq2
    · obtain ⟨s'', heq2, hskel2, hcfg2, hst2, hhc2⟩ := ih s hpre hfuel
        (fun q hq => hl q (List.mem_cons_of_mem _ hq))
      refine ⟨s'', ?_, hskel2, hcfg2, hst2, hhc2⟩
      rw [revealListGoAux, hcell]
      simp only [hh, if_false]
      exact heq2

lemma revealCellGo_spec (shuffle : List (Nat × Nat) → List (Nat × Nat)) :
    ∀ fuel, CellSpec shuffle fuel := by
  intro fuel
  induction fuel with
  | zero =>
    intro s r c _ hfuel
    omega
  | succ n ih =>
    intro s r c hpre hfuel hr hc
    by_cases hterm : s.status = MStatus.won ∨ s.status = MStatus.lost
    · exact ⟨s, false, by rw [revealCellGo]; simp only [hterm, if_true], rfl, rfl,
        hpre.2, le_refl _⟩
    · have hcell := cellAt?_eq_getCell hpre.1 hr hc
      by_cases hh : (getCell s.board r c).state = CellState.hidden
      · have hidle : ¬ s.status = MStatus.idle := hpre.2
        have hskel2 : skeleton (modifyCell s.board r c
            (fun cl => { cl with state := CellState.revealed })) =
            skeleton s.board := skeleton_modifyCell_state _ _ _ _
        have hdims2 : Dims (modifyCell s.board r c
            (fun cl => { cl with state := CellState.revealed }))
            s.config.rows s.config.cols :=
          modifyCell_dims hpre.1 r c hr _
        have hhc2 : hiddenCount (modifyCell s.board r c
            (fun cl => { cl with state := CellState.revealed })) + 1 =
            hiddenCount s.board :=
          hiddenCount_modifyCell_reveal hpre.1 hr hc hh
        by_cases hm : (getCell s.board r c).isMine
        · refine ⟨{ s with
              status := MStatus.lost
              board := revealAllMines (modifyCell s.board r c
                (fun cl => { cl with state := CellState.revealed }))
              revealedCells := s.revealedCells + 1 }, true, ?_, ?_, rfl, by simp, ?_⟩
          · rw [revealCellGo]
            simp [hterm, hidle, hcell, hh, hm]
          · exact (skeleton_revealAllMines _).trans hskel2
          · exact le_trans (hiddenCount_revealAllMines_le _) (by omega)
        · by_cases hz : (getCell s.board r c).neighborMines = 0
          · obtain ⟨s3, heq3, hskel3, hcfg3, hst3, hhc3⟩ :=
              revealListGoAux_spec shuffle n ih
                (neighborList s.config.rows s.config.cols r c)
                { s with
                  board := modifyCell s.board r c
                    (fun cl => { cl with state := CellState.revealed })
                  revealedCells := s.revealedCells + 1 }
                ⟨hdims2, hpre.2⟩ (by dsimp only; omega)
                (fun q hq => neighborList_bounds _ _ _ _ q hq)
            dsimp only at hhc3 hskel3
            obtain ⟨hwb, hwc, hws⟩ := checkWinCondition_facts s3
            refine ⟨checkWinCondition s3, true, ?_, ?_, ?_, ?_, ?_⟩
            · rw [revealCellGo]
              simp [hterm, hidle, hcell, hh, hm, hz, heq3]
            · rw [hwb]; exact hskel3.trans hskel2
            · rw [hwc, hcfg3]
            · rcases hws with hws | hws
              · rw [hws]; exact hst3
              · rw [hws]; simp
            · rw [hwb]; exact le_trans hhc3 (by omega)
          · obtain ⟨hwb, hwc, hws⟩ := checkWinCondition_facts
              { s with
                board := modifyCell s.board r c
                  (fun cl => { cl with state := CellState.revealed })
                revealedCells := s.revealedCells + 1 }
            refine ⟨checkWinCondition
              { s with
                board := modifyCell s.board r c
                  (fun cl => { cl with state := CellState.revealed })
                revealedCells := s.revealedCells + 1 }, true, ?_, ?_, ?_, ?_, ?_⟩
            · rw [revealCellGo]
              simp [hterm, hidle, hcell, hh, hm, hz]
            · rw [hwb]; exact hskel2
            · rw [hwc]
            · rcases hws with hws | hws
              · rw [hws]; exact hpre.2
              · rw [hws]; simp
            · rw [hwb]; simp only; omega
      · exact ⟨s, false, by
          rw [revealCellGo]
          simp only [hterm, if_false, hcell]
          simp [hh], rfl, rfl, hpre.2, le_refl _⟩

end Minesweeper

namespace Minesweeper

lemma getCell_fresh (rows cols r c : Nat) :
    getCell (createEmptyBoard rows cols) r c = freshCell := by
  unfold createEmptyBoard getCell
  by_cases hr : r < rows
  · have hrow : (List.replicate rows (List.replicate cols freshCell)).getD r [] =
        List.replicate cols freshCell := by
      rw [List.getD_eq_getElem?_getD, List.getElem?_eq_getElem (by simpa using hr)]
      simp [List.getElem_replicate]
    rw [hrow]
    by_cases hc : c < cols
    · rw [List.getD_eq_getElem?_getD, List.getElem?_eq_getElem (by simpa using hc)]
      simp [List.getElem_replicate]
    · rw [List.getD_eq_getElem?_getD, List.getElem?_eq_none (by simp; omega)]
      rfl
  · have hrow : (List.replicate rows (List.replicate cols freshCell)).getD r [] = [] := by
      rw [List.getD_eq_getElem?_getD, List.getElem?_eq_none (by simp; omega)]
      rfl
    rw [hrow]
    rfl

lemma createEmptyBoard_dims (rows cols : Nat) :
    Dims (createEmptyBoard rows cols) rows cols := by
  refine ⟨by simp [createEmptyBoard], ?_⟩
  intro row hrow
  have := List.eq_of_mem_replicate hrow
  subst this
  simp

lemma countMines_fresh (rows cols : Nat) :
    countMines (createEmptyBoard rows cols) = 0 := by
  simp [countMines, createEmptyBoard, freshCell, List.countP_eq_zero]

lemma modifyCell_oob_row {b : List (List MsCell)} {r : Nat} (c : Nat)
    (hrb : ¬ r < b.length) (f : MsCell → MsCell) : modifyCell b r c f = b := by
  unfold modifyCell
  rw [List.set_eq_of_length_le (by omega)]

lemma modifyCell_oob_col {b : List (List MsCell)} {r c : Nat}
    (hcb : ¬ c < (b.getD r []).length) (f : MsCell → MsCell) :
    modifyCell b r c f = b := by
  unfold modifyCell
  rw [List.set_eq_of_length_le (l := b.getD r []) (by omega)]
  exact set_getD_self [] b r

lemma getCell_modifyCell_same_raw {b : List (List MsCell)} {r c : Nat}
    (hrb : r < b.length) (hcb : c < (b.getD r []).length) (f : MsCell → MsCell) :
    getCell (modifyCell b r c f) r c = f (getCell b r c) := by
  unfold modifyCell getCell
  generalize f ((b.getD r []).getD c freshCell) = v
  have hrow : (b.set r ((b.getD r []).set c v)).getD r [] = (b.getD r []).set c v := by
    rw [List.getD_eq_getElem?_getD, List.getElem?_set_self hrb]
    rfl
  rw [hrow, List.getD_eq_getElem?_getD, List.getElem?_set_self hcb]
  rfl

lemma getCell_modifyCell_ne {b : List (List MsCell)} {r c r' c' : Nat}
    (h : ¬(r' = r ∧ c' = c)) (f : MsCell → MsCell) :
    getCell (modifyCell b r c f) r' c' = getCell b r' c' := by
  unfold modifyCell getCell
  generalize f ((b.getD r []).getD c freshCell) = v
  by_cases hrr : r' = r
  · subst hrr
    have hcc : c ≠ c' := fun h' => h ⟨rfl, h'.symm⟩
    by_cases hrb : r' < b.length
    · have hrow : (b.set r' ((b.getD r' []).set c v)).getD r' [] =
          (b.getD r' []).set c v := by
        rw [List.getD_eq_getElem?_getD, List.getElem?_set_self hrb]
        rfl
      rw [hrow, List.getD_eq_getElem?_getD, List.getElem?_set_ne hcc,
        ← List.getD_eq_getElem?_getD]
    · rw [List.set_eq_of_length_le (l := b) (by omega)]
  · have hne : r ≠ r' := fun hh => hrr hh.symm
    have hrow : (b.set r ((b.getD r []).set c v)).getD r' [] = b.getD r' [] := by
      rw [List.getD_eq_getElem?_getD, List.getElem?_set_ne hne,
        ← List.getD_eq_getElem?_getD]
    rw [hrow]

lemma getCell_modifyCell_same_or (b : List (List MsCell)) (r c : Nat)
    (f : MsCell → MsCell) :
    getCell (modifyCell b r c f) r c = f (getCell b r c) ∨
    getCell (modifyCell b r c f) r c = getCell b r c := by
  by_cases hrb : r < b.length
  · by_cases hcb : c < (b.getD r []).length
    · exact Or.inl (getCell_modifyCell_same_raw hrb hcb f)
    · exact Or.inr (by rw [modifyCell_oob_col hcb])
  · exact Or.inr (by rw [modifyCell_oob_row c hrb])

lemma countMines_modifyCell_setMine {b : List (List MsCell)} {rows cols r c : Nat}
    (hd : Dims b rows cols) (hr : r < rows) (hc : c < cols)
    (hm : (getCell b r c).isMine = false) :
    countMines (modifyCell b r c (fun cell => { cell with isMine := true })) =
      countMines b + 1 := by
  obtain ⟨hlen, hrows⟩ := hd
  have hrb : r < b.length := by omega
  have hrowmem : b[r] ∈ b := List.getElem_mem _
  have hcb : c < b[r].length := by rw [hrows _ hrowmem]; omega
  have hgd : b.getD r [] = b[r] := getD_eq_getElem_of_lt b r [] hrb
  have hcgd : getCell b r c = b[r][c] := getCell_eq_getElem hrb hcb
  unfold countMines modifyCell
  rw [List.map_set, hgd]
  have hsum := sum_set_nat
    (b.map (fun row => row.countP (fun cell => cell.isMine))) r
    ((b[r].set c ((fun cell => { cell with isMine := true }) (getCell b r c))).countP
      (fun cell => cell.isMine))
    (by simpa using hrb)
  have hrm : r < (b.map (fun row => row.countP
      (fun cell => cell.isMine))).length := by
    simpa using hrb
  have hget : (b.map (fun row => row.countP
      (fun cell => cell.isMine)))[r] =
      b[r].countP (fun cell => cell.isMine) := by
    simp
  rw [hget] at hsum
  have hcount := countP_set (fun cell => cell.isMine)
    b[r] c ((fun cell => { cell with isMine := true }) (getCell b r c)) hcb
  rw [← hcgd] at hcount
  simp [hm] at hcount
  beta_reduce
  beta_reduce at hsum
  omega

lemma range_map_getD {α : Type _} (l : List α) (d : α) :
    (List.range l.length).map (fun i => l.getD i d) = l := by
  apply List.ext_getElem (by simp)
  intro i h1 h2
  rw [List.getElem_map, List.getElem_range]
  exact getD_eq_getElem_of_lt l i d (by simpa using h2)

lemma countP_grid (p : MsCell → Bool) (b : List (List MsCell)) (rows cols : Nat)
    (hd : Dims b rows cols) :
    (b.map (fun row => row.countP p)).sum =
      ((List.range rows).map (fun r =>
        (List.range cols).countP (fun c => p (getCell b r c)))).sum := by
  obtain ⟨hlen, hrows⟩ := hd
  have hb : (List.range rows).map (fun r => b.getD r []) = b := by
    rw [← hlen]
    exact range_map_getD b []
  conv_lhs => rw [← hb]
  rw [List.map_map]
  congr 1
  apply List.map_congr_left
  intro r hr
  simp only [Function.comp]
  have hrow : (b.getD r []).length = cols := by
    refine hrows _ (getD_mem_of_lt b r [] ?_)
    rw [hlen]
    simpa using hr
  have hrow2 : (List.range cols).map (fun c => (b.getD r []).getD c freshCell) =
      b.getD r [] := by
    rw [← hrow]
    exact range_map_getD _ _
  conv_lhs => rw [← hrow2]
  rw [List.countP_map]
  rfl

lemma grid_count_congr (p : MsCell → Bool) (b b' : List (List MsCell))
    (rows cols : Nat)
    (h : ∀ r < rows, ∀ c < cols, p (getCell b r c) = p (getCell b' r c)) :
    ((List.range rows).map (fun r =>
      (List.range cols).countP (fun c => p (getCell b r c)))).sum =
    ((List.range rows).map (fun r =>
      (List.range cols).countP (fun c => p (getCell b' r c)))).sum := by
  congr 1
  apply List.map_congr_left
  intro r hr
  apply List.countP_congr
  intro c hc
  rw [h r (by simpa using hr) c (by simpa using hc)]

end Minesweeper

namespace Minesweeper

lemma isExcluded_self (er ec : Nat) : isExcluded er ec er ec = true := by
  simp [isExcluded]

lemma mem_availableCells {rows cols er ec : Nat} {p : Nat × Nat} :
    p ∈ availableCells rows cols er ec ↔
      p.1 < rows ∧ p.2 < cols ∧ isExcluded p.1 p.2 er ec = false := by
  simp only [availableCells, List.mem_flatMap, List.mem_map, List.mem_filter,
    List.mem_range]
  constructor
  · rintro ⟨r, hr, c, ⟨⟨hc, hex⟩, rfl⟩⟩
    exact ⟨hr, hc, by simpa using hex⟩
  · rintro ⟨h1, h2, h3⟩
    exact ⟨p.1, h1, p.2, ⟨⟨h2, by simpa using h3⟩, rfl⟩⟩

lemma availableCells_nodup (rows cols er ec : Nat) :
    (availableCells rows cols er ec).Nodup := by
  rw [availableCells, List.nodup_flatMap]
  constructor
  · intro r _
    refine List.Nodup.map ?_ (List.Nodup.filter _ (List.nodup_range cols))
    intro a b h
    simpa using h
  · refine List.Pairwise.imp ?_ (List.nodup_range rows)
    intro a b hab
    intro x hx1 hx2
    simp only [List.mem_map, List.mem_filter, List.mem_range] at hx1 hx2
    obtain ⟨c1, _, rfl⟩ := hx1
    obtain ⟨c2, _, heq⟩ := hx2
    exact hab (congrArg Prod.fst heq).symm

lemma neighborList_excluded (rows cols er ec : Nat) :
    ∀ p ∈ neighborList rows cols er ec, isExcluded p.1 p.2 er ec = true := by
  intro p hp
  simp only [neighborList, List.mem_flatMap, List.mem_filterMap, List.mem_filter,
    List.mem_range] at hp
  obtain ⟨a, ⟨_, ha2⟩, b2, ⟨⟨_, hb2⟩, hif⟩⟩ := hp
  split at hif
  · simp at hif
  · have : p = (a, b2) := by simpa using hif.symm
    subst this
    simp only [Bool.and_eq_true, decide_eq_true_eq] at ha2 hb2
    simp only [isExcluded, Bool.and_eq_true, decide_eq_true_eq]
    constructor <;> omega

lemma getCell_oob {b : List (List MsCell)} {rows cols : Nat}
    (hd : Dims b rows cols) {r c : Nat} (h : ¬(r < rows ∧ c < cols)) :
    getCell b r c = freshCell := by
  obtain ⟨hlen, hrows⟩ := hd
  unfold getCell
  by_cases hr : r < rows
  · have hrowlen : (b.getD r []).length = cols :=
      hrows _ (getD_mem_of_lt b r [] (by omega))
    have hc : ¬ c < cols := fun hc => h ⟨hr, hc⟩
    rw [List.getD_eq_getElem?_getD, List.getElem?_eq_none (by omega)]
    rfl
  · have hrow : b.getD r [] = [] := by
      rw [List.getD_eq_getElem?_getD, List.getElem?_eq_none (by omega)]
      rfl
    rw [hrow]
    rfl

lemma setMine_state (b : List (List MsCell)) (r c r' c' : Nat) :
    (getCell (modifyCell b r c (fun cell => { cell with isMine := true })) r' c').state =
      (getCell b r' c').state := by
  by_cases h : r' = r ∧ c' = c
  · obtain ⟨rfl, rfl⟩ := h
    rcases getCell_modifyCell_same_or b r' c'
        (fun cell => { cell with isMine := true }) with h | h <;> rw [h]
  · rw [getCell_modifyCell_ne h]

lemma foldSetMine_state (ps : List (Nat × Nat)) :
    ∀ (b : List (List MsCell)) (r' c' : Nat),
      (getCell (ps.foldl (fun b p => modifyCell b p.1 p.2
        (fun cell => { cell with isMine := true })) b) r' c').state =
      (getCell b r' c').state := by
  induction ps with
  | nil => intro b r' c'; rfl
  | cons p rest ih =>
    intro b r' c'
    rw [List.foldl_cons, ih, setMine_state]

lemma foldSetMine_dims {rows cols : Nat} (ps : List (Nat × Nat))
    (hps : ∀ p ∈ ps, p.1 < rows) :
    ∀ (b : List (List MsCell)), Dims b rows cols →
      Dims (ps.foldl (fun b p => modifyCell b p.1 p.2
        (fun cell => { cell with isMine := true })) b) rows cols := by
  induction ps with
  | nil => intro b hd; exact hd
  | cons p rest ih =>
    intro b hd
    rw [List.foldl_cons]
    exact ih (fun q hq => hps q (List.mem_cons_of_mem _ hq)) _
      (modifyCell_dims hd p.1 p.2 (hps p (by simp)) _)

lemma foldSetMine_mine_of_ne {r c : Nat} (ps : List (Nat × Nat))
    (hne : ∀ p ∈ ps, p ≠ (r, c)) :
    ∀ (b : List (List MsCell)),
      (getCell (ps.foldl (fun b p => modifyCell b p.1 p.2
        (fun cell => { cell with isMine := true })) b) r c).isMine =
      (getCell b r c).isMine := by
  induction ps with
  | nil => intro b; rfl
  | cons p rest ih =>
    intro b
    rw [List.foldl_cons, ih (fun q hq => hne q (List.mem_cons_of_mem _ hq))]
    have hpair : ¬(r = p.1 ∧ c = p.2) := by
      rintro ⟨h1, h2⟩
      exact hne p (by simp) (by cases p; simp_all)
    rw [getCell_modifyCell_ne hpair]

lemma foldSetMine_countMines {rows cols : Nat} (ps : List (Nat × Nat)) :
    ∀ (b : List (List MsCell)), Dims b rows cols → ps.Nodup →
      (∀ p ∈ ps, p.1 < rows ∧ p.2 < cols) →
      (∀ p ∈ ps, (getCell b p.1 p.2).isMine = false) →
      countMines (ps.foldl (fun b p => modifyCell b p.1 p.2
        (fun cell => { cell with isMine := true })) b) =
        countMines b + ps.length := by
  induction ps with
  | nil => intro b _ _ _ _; simp
  | cons p rest ih =>
    intro b hd hnd hbound hmine
    rw [List.foldl_cons]
    have hd' : Dims (modifyCell b p.1 p.2
        (fun cell => { cell with isMine := true })) rows cols :=
      modifyCell_dims hd p.1 p.2 (hbound p (by simp)).1 _
    have hrest_mine : ∀ q ∈ rest,
        (getCell (modifyCell b p.1 p.2
          (fun cell => { cell with isMine := true })) q.1 q.2).isMine = false := by
      intro q hq
      have hqp : ¬(q.1 = p.1 ∧ q.2 = p.2) := by
        rintro ⟨h1, h2⟩
        have : q = p := by cases q; cases p; simp_all
        subst this
        exact (List.nodup_cons.mp hnd).1 hq
      rw [getCell_modifyCell_ne hqp]
      exact hmine q (List.mem_cons_of_mem _ hq)
    rw [ih _ hd' (List.nodup_cons.mp hnd).2
      (fun q hq => hbound q (List.mem_cons_of_mem _ hq)) hrest_mine]
    rw [countMines_modifyCell_setMine hd (hbound p (by simp)).1 (hbound p (by simp)).2
      (hmine p (by simp))]
    simp
    omega

lemma calculateNeighborMines_dims (cfg : MsConfig) (b : List (List MsCell)) :
    Dims (calculateNeighborMines cfg b) cfg.rows cfg.cols := by
  refine ⟨by simp [calculateNeighborMines], ?_⟩
  intro row hrow
  simp only [calculateNeighborMines, List.mem_map, List.mem_range] at hrow
  obtain ⟨r, _, rfl⟩ := hrow
  simp

lemma getCell_calculate (cfg : MsConfig) (b : List (List MsCell)) {r c : Nat}
    (hr : r < cfg.rows) (hc : c < cfg.cols) :
    getCell (calculateNeighborMines cfg b) r c =
      (if (getCell b r c).isMine then getCell b r c
       else { getCell b r c with
         neighborMines := countNeighborMines b cfg.rows cfg.cols r c }) := by
  have hrow : (calculateNeighborMines cfg b).getD r [] =
      (List.range cfg.cols).map (fun c =>
        let cell := getCell b r c
        if cell.isMine then cell
        else { cell with
          neighborMines := countNeighborMines b cfg.rows cfg.cols r c }) := by
    unfold calculateNeighborMines
    rw [getD_eq_getElem_of_lt _ _ _ (by simpa using hr)]
    simp
  have hcell : getCell (calculateNeighborMines cfg b) r c =
      ((calculateNeighborMines cfg b).getD r []).getD c freshCell := rfl
  rw [hcell, hrow, getD_eq_getElem_of_lt _ _ _ (by simpa using hc)]
  simp

lemma getCell_calculate_isMine (cfg : MsConfig) (b : List (List MsCell)) {r c : Nat}
    (hr : r < cfg.rows) (hc : c < cfg.cols) :
    (getCell (calculateNeighborMines cfg b) r c).isMine = (getCell b r c).isMine := by
  rw [getCell_calculate cfg b hr hc]
  split <;> rfl

lemma getCell_calculate_state (cfg : MsConfig) (b : List (List MsCell)) {r c : Nat}
    (hr : r < cfg.rows) (hc : c < cfg.cols) :
    (getCell (calculateNeighborMines cfg b) r c).state = (getCell b r c).state := by
  rw [getCell_calculate cfg b hr hc]
  split <;> rfl

lemma hiddenCount_congr_of_state {b b' : List (List MsCell)} {rows cols : Nat}
    (hd : Dims b rows cols) (hd' : Dims b' rows cols)
    (h : ∀ r < rows, ∀ c < cols, (getCell b' r c).state = (getCell b r c).state) :
    hiddenCount b' = hiddenCount b := by
  unfold hiddenCount
  rw [countP_grid _ b' rows cols hd', countP_grid _ b rows cols hd]
  exact grid_count_congr (fun cell => decide (cell.state = CellState.hidden)) b' b
    rows cols (fun r hr c hc => by beta_reduce; rw [h r hr c hc])

lemma countMines_congr_of_mine {b b' : List (List MsCell)} {rows cols : Nat}
    (hd : Dims b rows cols) (hd' : Dims b' rows cols)
    (h : ∀ r < rows, ∀ c < cols, (getCell b' r c).isMine = (getCell b r c).isMine) :
    countMines b' = countMines b := by
  unfold countMines
  rw [countP_grid _ b' rows cols hd', countP_grid _ b rows cols hd]
  exact grid_count_congr (fun cell => cell.isMine) b' b rows cols
    (fun r hr c hc => by beta_reduce; rw [h r hr c hc])

end Minesweeper

namespace Minesweeper

lemma placeMines_eq (shuffle : List (Nat × Nat) → List (Nat × Nat))
    (cfg : MsConfig) (er ec : Nat) (b : List (List MsCell)) :
    placeMines shuffle cfg er ec b =
      ((shuffle (availableCells cfg.rows cfg.cols er ec)).take cfg.mines).foldl
        (fun b p => modifyCell b p.1 p.2
          (fun cell => { cell with isMine := true })) b := rfl

lemma initializedBoard_facts (shuffle : List (Nat × Nat) → List (Nat × Nat))
    (cfg : MsConfig) (er ec : Nat)
    (hperm : (shuffle (availableCells cfg.rows cfg.cols er ec)).Perm
      (availableCells cfg.rows cfg.cols er ec)) :
    (∀ r c, (getCell (calculateNeighborMines cfg (placeMines shuffle cfg er ec
        (createEmptyBoard cfg.rows cfg.cols))) r c).state = CellState.hidden) ∧
    hiddenCount (calculateNeighborMines cfg (placeMines shuffle cfg er ec
        (createEmptyBoard cfg.rows cfg.cols))) = hiddenCount (createEmptyBoard cfg.rows cfg.cols) ∧
    countMines (calculateNeighborMines cfg (placeMines shuffle cfg er ec
        (createEmptyBoard cfg.rows cfg.cols))) =
      min cfg.mines (availableCells cfg.rows cfg.cols er ec).length ∧
    (∀ r c, isExcluded r c er ec = true →
      (getCell (calculateNeighborMines cfg (placeMines shuffle cfg er ec
        (createEmptyBoard cfg.rows cfg.cols))) r c).isMine = false) := by
  have hEdims := createEmptyBoard_dims cfg.rows cfg.cols
  have hpsSub : ∀ p ∈ (shuffle (availableCells cfg.rows cfg.cols er ec)).take cfg.mines, p ∈ availableCells cfg.rows cfg.cols er ec :=
    fun p hp => hperm.mem_iff.mp (List.mem_of_mem_take hp)
  have hpsBound : ∀ p ∈ (shuffle (availableCells cfg.rows cfg.cols er ec)).take cfg.mines, p.1 < cfg.rows ∧ p.2 < cfg.cols :=
    fun p hp => ⟨(mem_availableCells.mp (hpsSub p hp)).1,
      (mem_availableCells.mp (hpsSub p hp)).2.1⟩
  have hpsNE : ∀ p ∈ (shuffle (availableCells cfg.rows cfg.cols er ec)).take cfg.mines, isExcluded p.1 p.2 er ec = false :=
    fun p hp => (mem_availableCells.mp (hpsSub p hp)).2.2
  have hpsNodup : ((shuffle (availableCells cfg.rows cfg.cols er ec)).take cfg.mines).Nodup :=
    List.Nodup.sublist (List.take_sublist _ _)
      (hperm.symm.nodup (availableCells_nodup cfg.rows cfg.cols er ec))
  have hPdims : Dims (placeMines shuffle cfg er ec
      (createEmptyBoard cfg.rows cfg.cols)) cfg.rows cfg.cols := by
    rw [placeMines_eq]
    exact foldSetMine_dims _ (fun p hp => (hpsBound p hp).1) _ hEdims
  have hCdims := calculateNeighborMines_dims cfg
    (placeMines shuffle cfg er ec (createEmptyBoard cfg.rows cfg.cols))
  have hstate : ∀ r c, (getCell (calculateNeighborMines cfg (placeMines shuffle cfg er ec
        (createEmptyBoard cfg.rows cfg.cols))) r c).state = CellState.hidden := by
    intro r c
    by_cases hin : r < cfg.rows ∧ c < cfg.cols
    · rw [getCell_calculate_state cfg _ hin.1 hin.2, placeMines_eq,
        foldSetMine_state, getCell_fresh]
      rfl
    · rw [getCell_oob hCdims hin]
      rfl
  refine ⟨hstate, ?_, ?_, ?_⟩
  · exact hiddenCount_congr_of_state hEdims hCdims
      (fun r hr c hc => by rw [hstate r c, getCell_fresh]; rfl)
  · have h1 : countMines (calculateNeighborMines cfg (placeMines shuffle cfg er ec
        (createEmptyBoard cfg.rows cfg.cols))) = countMines (placeMines shuffle cfg er ec
        (createEmptyBoard cfg.rows cfg.cols)) :=
      countMines_congr_of_mine hPdims hCdims
        (fun r hr c hc => getCell_calculate_isMine cfg _ hr hc)
    rw [h1, placeMines_eq, foldSetMine_countMines _ _ hEdims hpsNodup hpsBound
      (fun p hp => by rw [getCell_fresh]; rfl), countMines_fresh]
    simp [hperm.length_eq]
  · intro r c hex
    by_cases hin : r < cfg.rows ∧ c < cfg.cols
    · rw [getCell_calculate_isMine cfg _ hin.1 hin.2, placeMines_eq]
      have hne : ∀ p ∈ (shuffle (availableCells cfg.rows cfg.cols er ec)).take cfg.mines, p ≠ (r, c) := by
        intro p hp heq
        have h2 := hpsNE p hp
        rw [heq] at h2
        simp [hex] at h2
      rw [foldSetMine_mine_of_ne _ hne, getCell_fresh]
      rfl
    · rw [getCell_oob hCdims hin]
      rfl

end Minesweeper

namespace Minesweeper

/-- C2 (counterexample): the accepted custom config rows=5, cols=5, mines=24
is clamped to 20 mines (0 < 20 < 25), yet the first reveal at the centre of
the 5x5 board leaves only 16 cells outside the protected 3x3 neighbourhood,
so `slice(0, 20)` of the 16 shuffled candidates places just 16 mines, not
the configured 20. -/
theorem C2_counterexample :
    (setCustomConfig 5 5 24).mines = 20 ∧
    0 < (setCustomConfig 5 5 24).mines ∧
    (setCustomConfig 5 5 24).mines <
      (setCustomConfig 5 5 24).rows * (setCustomConfig 5 5 24).cols ∧
    ((revealCell (fun l => l) (createInitialState (setCustomConfig 5 5 24)) 2 2).map
      (fun q => countMines q.1.board)) = some 16 := by
  refine ⟨rfl, by decide, by decide, ?_⟩
  decide

/-- C2 (amended): for every accepted config and in-range first click, and
every permutation outcome of the shuffle, the first reveal succeeds and
places exactly `min mineCount |availableCells|` mines — which equals
`mineCount` whenever enough cells lie outside the protected 3x3
neighbourhood — and no mine sits on the clicked cell or any of its 8
neighbours. -/
theorem C2_amended (cfg : MsConfig) (shuffle : List (Nat × Nat) → List (Nat × Nat))
    (er ec : Nat) (her : er < cfg.rows) (hec : ec < cfg.cols)
    (hperm : (shuffle (availableCells cfg.rows cfg.cols er ec)).Perm
      (availableCells cfg.rows cfg.cols er ec)) :
    ∃ s' moved, revealCell shuffle (createInitialState cfg) er ec = some (s', moved) ∧
      countMines s'.board =
        min cfg.mines (availableCells cfg.rows cfg.cols er ec).length ∧
      (cfg.mines ≤ (availableCells cfg.rows cfg.cols er ec).length →
        countMines s'.board = cfg.mines) ∧
      ∀ r c, isExcluded r c er ec = true → (getCell s'.board r c).isMine = false := by
  obtain ⟨hB, hHC, hCM, hE⟩ := initializedBoard_facts shuffle cfg er ec hperm
  have hEdims := createEmptyBoard_dims cfg.rows cfg.cols
  have hCdims := calculateNeighborMines_dims cfg
    (placeMines shuffle cfg er ec (createEmptyBoard cfg.rows cfg.cols))
  have hcell0 : cellAt? (createEmptyBoard cfg.rows cfg.cols) er ec = some freshCell := by
    rw [cellAt?_eq_getCell hEdims her hec, getCell_fresh]
  have hcell1 : cellAt? (calculateNeighborMines cfg (placeMines shuffle cfg er ec
      (createEmptyBoard cfg.rows cfg.cols))) er ec = some (getCell (calculateNeighborMines cfg (placeMines shuffle cfg er ec
      (createEmptyBoard cfg.rows cfg.cols))) er ec) :=
    cellAt?_eq_getCell hCdims her hec
  have hmine : (getCell (calculateNeighborMines cfg (placeMines shuffle cfg er ec
      (createEmptyBoard cfg.rows cfg.cols))) er ec).isMine = false := hE er ec (isExcluded_self er ec)
  have hhstate : (getCell (calculateNeighborMines cfg (placeMines shuffle cfg er ec
      (createEmptyBoard cfg.rows cfg.cols))) er ec).state = CellState.hidden := hB er ec
  have hskelS2 : skeleton (modifyCell (calculateNeighborMines cfg (placeMines shuffle cfg er ec
      (createEmptyBoard cfg.rows cfg.cols))) er ec
      (fun cl => { cl with state := CellState.revealed })) = skeleton (calculateNeighborMines cfg (placeMines shuffle cfg er ec
      (createEmptyBoard cfg.rows cfg.cols))) :=
    skeleton_modifyCell_state _ _ _ _
  have hcmS2 : countMines (modifyCell (calculateNeighborMines cfg (placeMines shuffle cfg er ec
      (createEmptyBoard cfg.rows cfg.cols))) er ec
      (fun cl => { cl with state := CellState.revealed })) =
      min cfg.mines (availableCells cfg.rows cfg.cols er ec).length := by
    rw [countMines_eq_of_skeleton hskelS2, hCM]
  have hS2dims : Dims (modifyCell (calculateNeighborMines cfg (placeMines shuffle cfg er ec
      (createEmptyBoard cfg.rows cfg.cols))) er ec
      (fun cl => { cl with state := CellState.revealed })) cfg.rows cfg.cols :=
    modifyCell_dims hCdims er ec her _
  have hhcS2 : hiddenCount (modifyCell (calculateNeighborMines cfg (placeMines shuffle cfg er ec
      (createEmptyBoard cfg.rows cfg.cols))) er ec
      (fun cl => { cl with state := CellState.revealed })) + 1 = hiddenCount (calculateNeighborMines cfg (placeMines shuffle cfg er ec
      (createEmptyBoard cfg.rows cfg.cols))) :=
    hiddenCount_modifyCell_reveal hCdims her hec hhstate
  by_cases hz : (getCell (calculateNeighborMines cfg (placeMines shuffle cfg er ec
      (createEmptyBoard cfg.rows cfg.cols))) er ec).neighborMines = 0
  · obtain ⟨s3, heq3, hskel3, hcfg3, hst3, hhc3⟩ :=
      revealListGoAux_spec shuffle (hiddenCount (createEmptyBoard cfg.rows cfg.cols))
        (revealCellGo_spec shuffle _)
        (neighborList cfg.rows cfg.cols er ec)
        { status := MStatus.playing
          board := modifyCell (calculateNeighborMines cfg (placeMines shuffle cfg er ec
              (createEmptyBoard cfg.rows cfg.cols))) er ec
            (fun cl => { cl with state := CellState.revealed })
          config := cfg
          remainingMines := (cfg.mines : Int)
          flaggedMines := 0
          revealedCells := 1 }
        ⟨hS2dims, by simp⟩
        (by dsimp only; omega)
        (fun q hq => neighborList_bounds cfg.rows cfg.cols er ec q hq)
    refine ⟨checkWinCondition s3, true, ?_, ?_, ?_, ?_⟩
    · rw [revealCell, revealCellGo]
      simp [createInitialState, initializeGame, hcell0, freshCell, hcell1, hmine,
        hz, heq3]
    · rw [(checkWinCondition_facts s3).1]
      exact (countMines_eq_of_skeleton hskel3).trans hcmS2
    · intro hle
      rw [(checkWinCondition_facts s3).1,
        (countMines_eq_of_skeleton hskel3).trans hcmS2]
      exact min_eq_left hle
    · intro r c hex
      rw [(checkWinCondition_facts s3).1,
        getCell_mine_of_skeleton (hskel3.trans hskelS2)]
      exact hE r c hex
  · refine ⟨checkWinCondition
      { status := MStatus.playing
        board := modifyCell (calculateNeighborMines cfg (placeMines shuffle cfg er ec
            (createEmptyBoard cfg.rows cfg.cols))) er ec
          (fun cl => { cl with state := CellState.revealed })
        config := cfg
        remainingMines := (cfg.mines : Int)
        flaggedMines := 0
        revealedCells := 1 }, true, ?_, ?_, ?_, ?_⟩
    · rw [revealCell, revealCellGo]
      simp [createInitialState, initializeGame, hcell0, freshCell, hcell1, hmine, hz]
    · rw [(checkWinCondition_facts
        { status := MStatus.playing
          board := modifyCell (calculateNeighborMines cfg (placeMines shuffle cfg er ec
              (createEmptyBoard cfg.rows cfg.cols))) er ec
            (fun cl => { cl with state := CellState.revealed })
          config := cfg
          remainingMines := (cfg.mines : Int)
          flaggedMines := 0
          revealedCells := 1 }).1]
      exact hcmS2
    · intro hle
      rw [(checkWinCondition_facts
        { status := MStatus.playing
          board := modifyCell (calculateNeighborMines cfg (placeMines shuffle cfg er ec
              (createEmptyBoard cfg.rows cfg.cols))) er ec
            (fun cl => { cl with state := CellState.revealed })
          config := cfg
          remainingMines := (cfg.mines : Int)
          flaggedMines := 0
          revealedCells := 1 }).1, hcmS2]
      exact min_eq_left hle
    · intro r c hex
      rw [(checkWinCondition_facts
        { status := MStatus.playing
          board := modifyCell (calculateNeighborMines cfg (placeMines shuffle cfg er ec
              (createEmptyBoard cfg.rows cfg.cols))) er ec
            (fun cl => { cl with state := CellState.revealed })
          config := cfg
          remainingMines := (cfg.mines : Int)
          flaggedMines := 0
          revealedCells := 1 }).1,
        getCell_mine_of_skeleton hskelS2]
      exact hE r c hex

/-- Witness for C2_amended at the beginner 9x9/10 config with a corner first
click and the identity shuffle outcome. -/
theorem C2_witness :
    ∃ s' moved,
      revealCell (fun l => l) (createInitialState ⟨9, 9, 10⟩) 0 0 = some (s', moved) ∧
      countMines s'.board = min 10 (availableCells 9 9 0 0).length ∧
      (10 ≤ (availableCells 9 9 0 0).length → countMines s'.board = 10) ∧
      ∀ r c, isExcluded r c 0 0 = true → (getCell s'.board r c).isMine = false :=
  C2_amended ⟨9, 9, 10⟩ (fun l => l) 0 0 (by decide) (by decide) (List.Perm.refl _)

end Minesweeper

namespace Minesweeper

lemma countP_add_countP_not {α : Type _} (l : List α) (p : α → Bool) :
    l.countP p + l.countP (fun a => !(p a)) = l.length := by
  induction l with
  | nil => rfl
  | cons a t ih =>
    by_cases h : p a <;> simp [List.countP_cons, h] <;> omega

lemma countP_lt_of_witness {α : Type _} (l : List α) (p q : α → Bool) (w : α)
    (hw : w ∈ l) (hq : q w = true) (hp : p w = false)
    (hmono : ∀ x ∈ l, p x = true → q x = true) :
    l.countP p < l.countP q := by
  induction l with
  | nil => cases hw
  | cons a t ih =>
    rcases List.mem_cons.mp hw with rfl | hw'
    · have h1 : t.countP p ≤ t.countP q :=
        List.countP_mono_left (fun x hx => hmono x (List.mem_cons_of_mem _ hx))
      simp [List.countP_cons, hp, hq]
      omega
    · have h2 := ih hw' (fun x hx => hmono x (List.mem_cons_of_mem _ hx))
      have hpa : p a = true → q a = true := hmono a (by simp)
      by_cases h : p a
      · simp [List.countP_cons, h, hpa h]
        omega
      · by_cases hqa : q a <;> simp [List.countP_cons, h, hqa] <;> omega

lemma countP_flatMap {α β : Type _} (l : List α) (f : α → List β) (p : β → Bool) :
    (l.flatMap f).countP p = (l.map (fun a => (f a).countP p)).sum := by
  induction l with
  | nil => rfl
  | cons a t ih => simp [List.flatMap_cons, List.countP_append, ih]

lemma grid_countP_positions (p : MsCell → Bool) (b : List (List MsCell))
    (rows cols : Nat) :
    ((List.range rows).flatMap (fun r =>
        (List.range cols).map (fun c => (r, c)))).countP
      (fun q => p (getCell b q.1 q.2)) =
      ((List.range rows).map (fun r =>
        (List.range cols).countP (fun c => p (getCell b r c)))).sum := by
  rw [countP_flatMap]
  congr 1
  apply List.map_congr_left
  intro r _
  rw [List.countP_map]
  rfl

lemma positions_length (rows cols : Nat) :
    ((List.range rows).flatMap (fun r =>
      (List.range cols).map (fun c => (r, c)))).length = rows * cols := by
  induction rows with
  | zero => simp
  | succ n ih =>
    rw [List.range_succ, List.flatMap_append, List.length_append, ih]
    simp [Nat.succ_mul]

lemma getCell_count_of_skeleton {b b' : List (List MsCell)}
    (hs : skeleton b' = skeleton b) (r c : Nat) :
    (getCell b' r c).neighborMines = (getCell b r c).neighborMines := by
  have h1 := skeleton_getD b' r c
  have h2 := skeleton_getD b r c
  rw [hs] at h1
  exact congrArg Prod.snd (h1.symm.trans h2)

lemma consistent_of_skeleton {b b' : List (List MsCell)} {rows cols : Nat}
    (hs : skeleton b' = skeleton b) (hcons : Consistent b rows cols) :
    Consistent b' rows cols := by
  intro r hr c hc hm hz p hp
  rw [getCell_mine_of_skeleton hs] at hm
  rw [getCell_count_of_skeleton hs] at hz
  rw [getCell_mine_of_skeleton hs]
  exact hcons r hr c hc hm hz p hp

lemma boardMono_refl (b : List (List MsCell)) : BoardMono b b :=
  fun _ _ => Or.inl rfl

lemma boardMono_trans {a b c : List (List MsCell)}
    (h1 : BoardMono a b) (h2 : BoardMono b c) : BoardMono a c := by
  intro r cc
  rcases h2 r cc with h | ⟨hb, hc2⟩
  · rcases h1 r cc with h' | ⟨ha, hb'⟩
    · exact Or.inl (h.trans h')
    · exact Or.inr ⟨ha, h.trans hb'⟩
  · rcases h1 r cc with h' | ⟨ha, hb'⟩
    · exact Or.inr ⟨h'.symm.trans hb, hc2⟩
    · exact absurd (hb'.symm.trans hb) (by decide)

lemma boardMono_hidden_back {b b' : List (List MsCell)} (h : BoardMono b b')
    {r c : Nat} (hh : (getCell b' r c).state = CellState.hidden) :
    (getCell b r c).state = CellState.hidden := by
  rcases h r c with h' | ⟨_, hb'⟩
  · exact h'.symm.trans hh
  · exact absurd (hb'.symm.trans hh) (by decide)

lemma boardMono_nonhidden {b b' : List (List MsCell)} (h : BoardMono b b')
    {r c : Nat} (hnh : (getCell b r c).state ≠ CellState.hidden) :
    (getCell b' r c).state = (getCell b r c).state := by
  rcases h r c with h' | ⟨ha, _⟩
  · exact h'
  · exact absurd ha hnh

lemma boardMono_revealed {b b' : List (List MsCell)} (h : BoardMono b b')
    {r c : Nat} (hr2 : (getCell b r c).state = CellState.revealed) :
    (getCell b' r c).state = CellState.revealed := by
  have hnh : (getCell b r c).state ≠ CellState.hidden := by
    rw [hr2]
    decide
  rw [boardMono_nonhidden h hnh, hr2]

lemma boardMono_modifyCell_reveal {b : List (List MsCell)} {r c : Nat}
    (hh : (getCell b r c).state = CellState.hidden) :
    BoardMono b (modifyCell b r c
      (fun cl => { cl with state := CellState.revealed })) := by
  intro r' c'
  by_cases hsame : r' = r ∧ c' = c
  · obtain ⟨rfl, rfl⟩ := hsame
    rcases getCell_modifyCell_same_or b r' c'
        (fun cl => { cl with state := CellState.revealed }) with h | h
    · exact Or.inr ⟨hh, by rw [h]⟩
    · exact Or.inl (by rw [h])
  · exact Or.inl (by rw [getCell_modifyCell_ne hsame])

lemma reachH_mono {b b' : List (List MsCell)} (hskel : skeleton b' = skeleton b)
    (hhid : ∀ r c, (getCell b' r c).state = CellState.hidden →
      (getCell b r c).state = CellState.hidden)
    {rows cols r0 c0 r c : Nat}
    (h : ReachH b' rows cols r0 c0 r c) : ReachH b rows cols r0 c0 r c := by
  induction h with
  | start => exact ReachH.start
  | step h1 hs hm hz hmem hth ih =>
    exact ReachH.step ih (hhid _ _ hs)
      (by rw [← getCell_mine_of_skeleton hskel]; exact hm)
      (by rw [← getCell_count_of_skeleton hskel]; exact hz)
      hmem (hhid _ _ hth)

lemma reachH_append {b : List (List MsCell)} {rows cols r0 c0 r1 c1 r2 c2 : Nat}
    (h1 : ReachH b rows cols r0 c0 r1 c1)
    (h2 : ReachH b rows cols r1 c1 r2 c2) :
    ReachH b rows cols r0 c0 r2 c2 := by
  induction h2 with
  | start => exact h1
  | step h hs hm hz hmem hth ih => exact ReachH.step ih hs hm hz hmem hth

lemma reachH_bounds {b : List (List MsCell)} {rows cols r0 c0 r c : Nat}
    (h0r : r0 < rows) (h0c : c0 < cols)
    (h : ReachH b rows cols r0 c0 r c) : r < rows ∧ c < cols := by
  induction h with
  | start => exact ⟨h0r, h0c⟩
  | step h1 hs hm hz hmem hth ih => exact neighborList_bounds rows cols _ _ _ hmem

lemma revealedCount_modifyCell_reveal {b : List (List MsCell)}
    {rows cols r c : Nat} (hd : Dims b rows cols) (hr : r < rows) (hc : c < cols)
    (hh : (getCell b r c).state = CellState.hidden) :
    revealedCount (modifyCell b r c
      (fun cl => { cl with state := CellState.revealed })) =
      revealedCount b + 1 := by
  obtain ⟨hlen, hrows⟩ := hd
  have hrb : r < b.length := by omega
  have hrowmem : b[r] ∈ b := List.getElem_mem _
  have hcb : c < b[r].length := by rw [hrows _ hrowmem]; omega
  have hgd : b.getD r [] = b[r] := getD_eq_getElem_of_lt b r [] hrb
  have hcgd : getCell b r c = b[r][c] := getCell_eq_getElem hrb hcb
  unfold revealedCount modifyCell
  rw [List.map_set, hgd]
  have hsum := sum_set_nat
    (b.map (fun row => row.countP (fun cell => decide (cell.state = CellState.revealed)))) r
    ((b[r].set c ((fun cl => { cl with state := CellState.revealed }) (getCell b r c))).countP
      (fun cell => decide (cell.state = CellState.revealed)))
    (by simpa using hrb)
  have hrm : r < (b.map (fun row => row.countP
      (fun cell => decide (cell.state = CellState.revealed)))).length := by
    simpa using hrb
  have hget : (b.map (fun row => row.countP
      (fun cell => decide (cell.state = CellState.revealed))))[r] =
      b[r].countP (fun cell => decide (cell.state = CellState.revealed)) := by
    simp
  rw [hget] at hsum
  have hcount := countP_set (fun cell => decide (cell.state = CellState.revealed))
    b[r] c ((fun cl => { cl with state := CellState.revealed }) (getCell b r c)) hcb
  rw [← hcgd] at hcount
  simp [hh] at hcount
  beta_reduce
  beta_reduce at hsum
  omega

lemma noHiddenNonMine_of_full (s : MsState) (hwf : WfR s)
    (hcount : s.revealedCells = s.config.rows * s.config.cols - s.config.mines) :
    NoHiddenNonMine s := by
  obtain ⟨hd, hcons, hcm, hrc, hrnm⟩ := hwf
  intro a ha d hdlt hh
  by_contra hmine
  have hmf : (getCell s.board a d).isMine = false := by
    cases hfact : (getCell s.board a d).isMine
    · rfl
    · exact absurd hfact hmine
  have hrev : revealedCount s.board =
      ((List.range s.config.rows).flatMap (fun r =>
        (List.range s.config.cols).map (fun c => (r, c)))).countP
        (fun q => decide ((getCell s.board q.1 q.2).state = CellState.revealed)) := by
    unfold revealedCount
    rw [countP_grid _ s.board s.config.rows s.config.cols hd]
    exact (grid_countP_positions
      (fun cell => decide (cell.state = CellState.revealed)) s.board _ _).symm
  have hmines : countMines s.board =
      ((List.range s.config.rows).flatMap (fun r =>
        (List.range s.config.cols).map (fun c => (r, c)))).countP
        (fun q => (getCell s.board q.1 q.2).isMine) := by
    unfold countMines
    rw [countP_grid _ s.board s.config.rows s.config.cols hd]
    exact (grid_countP_positions (fun cell => cell.isMine) s.board _ _).symm
  have hwmem : (a, d) ∈ (List.range s.config.rows).flatMap (fun r =>
      (List.range s.config.cols).map (fun c => (r, c))) := by
    simp only [List.mem_flatMap, List.mem_map, List.mem_range]
    exact ⟨a, ha, d, hdlt, rfl⟩
  have hlt : ((List.range s.config.rows).flatMap (fun r =>
        (List.range s.config.cols).map (fun c => (r, c)))).countP
        (fun q => decide ((getCell s.board q.1 q.2).state = CellState.revealed)) <
      ((List.range s.config.rows).flatMap (fun r =>
        (List.range s.config.cols).map (fun c => (r, c)))).countP
        (fun q => !((getCell s.board q.1 q.2).isMine)) := by
    apply countP_lt_of_witness _ _ _ (a, d) hwmem
    · simp [hmf]
    · simp [hh]
    · intro x hx hpx
      have hxb : x.1 < s.config.rows ∧ x.2 < s.config.cols := by
        simp only [List.mem_flatMap, List.mem_map, List.mem_range] at hx
        obtain ⟨r1, hr1, c1, hc1, rfl⟩ := hx
        exact ⟨hr1, hc1⟩
      have hnm := hrnm x.1 hxb.1 x.2 hxb.2 (by simpa using hpx)
      simp [hnm]
  have hcomp := countP_add_countP_not
    ((List.range s.config.rows).flatMap (fun r =>
      (List.range s.config.cols).map (fun c => (r, c))))
    (fun q => (getCell s.board q.1 q.2).isMine)
  have hLlen := positions_length s.config.rows s.config.cols
  have hmle : ((List.range s.config.rows).flatMap (fun r =>
      (List.range s.config.cols).map (fun c => (r, c)))).countP
      (fun q => (getCell s.board q.1 q.2).isMine) ≤
      ((List.range s.config.rows).flatMap (fun r =>
        (List.range s.config.cols).map (fun c => (r, c)))).length :=
    List.countP_le_length _
  omega

end Minesweeper

namespace Minesweeper

lemma revealListGoAuxR_spec (shuffle : List (Nat × Nat) → List (Nat × Nat))
    (fuel : Nat) (hQ : CellSpecR shuffle fuel) :
    ∀ l s, (s.status = MStatus.playing ∨
        (s.status = MStatus.won ∧ NoHiddenNonMine s)) →
      WfR s → fuel > hiddenCount s.board →
      (∀ p ∈ l, p.1 < s.config.rows ∧ p.2 < s.config.cols ∧
        (getCell s.board p.1 p.2).isMine = false) →
      ∃ s', revealListGoAux (revealCellGo shuffle fuel) s l = some s' ∧
        skeleton s'.board = skeleton s.board ∧
        s'.config = s.config ∧
        (s'.status = MStatus.playing ∨ s'.status = MStatus.won) ∧
        WfR s' ∧
        hiddenCount s'.board ≤ hiddenCount s.board ∧
        BoardMono s.board s'.board ∧
        (∀ p ∈ l, (getCell s'.board p.1 p.2).state ≠ CellState.hidden) ∧
        (∀ r' c', (getCell s'.board r' c').state = CellState.revealed →
          (getCell s.board r' c').state = CellState.revealed ∨
          ∃ p ∈ l, (getCell s.board p.1 p.2).state = CellState.hidden ∧
            ReachH s.board s.config.rows s.config.cols p.1 p.2 r' c') ∧
        (∀ r' c', r' < s.config.rows → c' < s.config.cols →
          (getCell s.board r' c').state = CellState.hidden →
          (getCell s'.board r' c').state = CellState.revealed →
          (getCell s.board r' c').neighborMines = 0 →
          ∀ p ∈ neighborList s.config.rows s.config.cols r' c',
            (getCell s'.board p.1 p.2).state ≠ CellState.hidden) ∧
        (s'.status = MStatus.won → NoHiddenNonMine s') := by
  intro l
  induction l with
  | nil =>
    intro s hst hwf hfuel _
    refine ⟨s, rfl, rfl, rfl, ?_, hwf, le_refl _, boardMono_refl _, by simp,
      fun r' c' hrev => Or.inl hrev, ?_, ?_⟩
    · rcases hst with h | ⟨h, _⟩
      · exact Or.inl h
      · exact Or.inr h
    · intro r' c' _ _ hhs hrevs _
      exact absurd (hhs.symm.trans hrevs) (by decide)
    · intro hwon
      rcases hst with h | ⟨_, hnh⟩
      · rw [h] at hwon
        exact absurd hwon (by decide)
      · exact hnh
  | cons p rest ih =>
    intro s hst hwf hfuel hl
    obtain ⟨hp1, hp2, hpm⟩ := hl p (by simp)
    have hdims : Dims s.board s.config.rows s.config.cols := hwf.1
    have hcell := cellAt?_eq_getCell hdims hp1 hp2
    by_cases hh : (getCell s.board p.1 p.2).state = CellState.hidden
    · have hplay : s.status = MStatus.playing := by
        rcases hst with h | ⟨_, hnh⟩
        · exact h
        · exact absurd (hnh p.1 hp1 p.2 hp2 hh) (by simp [hpm])
      obtain ⟨s1, b2, heq1, hskel1, hcfg1, hst1, hwf1, hhc1, hmono1, hrev1,
        hsound1, hclose1, hwonNH1⟩ := hQ s p.1 p.2 hplay hwf hfuel hp1 hp2 hpm
      have hst1' : s1.status = MStatus.playing ∨
          (s1.status = MStatus.won ∧ NoHiddenNonMine s1) := by
        rcases hst1 with h | h
        · exact Or.inl h
        · exact Or.inr ⟨h, hwonNH1 h⟩
      have hl1 : ∀ q ∈ rest, q.1 < s1.config.rows ∧ q.2 < s1.config.cols ∧
          (getCell s1.board q.1 q.2).isMine = false := by
        intro q hq
        obtain ⟨hq1, hq2, hqm⟩ := hl q (List.mem_cons_of_mem _ hq)
        rw [hcfg1]
        exact ⟨hq1, hq2, by rw [getCell_mine_of_skeleton hskel1]; exact hqm⟩
      obtain ⟨s2, heq2, hskel2, hcfg2, hst2, hwf2, hhc2, hmono2, hnh2, hsound2,
        hclose2, hwonNH2⟩ := ih s1 hst1' hwf1 (lt_of_le_of_lt hhc1 hfuel) hl1
      refine ⟨s2, ?_, hskel2.trans hskel1, hcfg2.trans hcfg1, hst2, hwf2,
        le_trans hhc2 hhc1, boardMono_trans hmono1 hmono2, ?_, ?_, ?_, hwonNH2⟩
      · rw [revealListGoAux, hcell]
        simp only [hh, if_true, heq1]
        exact heq2
      · intro q hq
        rcases List.mem_cons.mp hq with rfl | hq'
        · have hrv : (getCell s1.board q.1 q.2).state = CellState.revealed :=
            hrev1 hh
          rw [boardMono_revealed hmono2 hrv]
          decide
        · exact hnh2 q hq'
      · intro r' c' hrev
        rcases hsound2 r' c' hrev with hrev1' | ⟨q, hq, hqh, hreach⟩
        · rcases hsound1 r' c' hrev1' with hrevs | hreach
          · exact Or.inl hrevs
          · exact Or.inr ⟨p, by simp, hh, hreach⟩
        · refine Or.inr ⟨q, List.mem_cons_of_mem _ hq,
            boardMono_hidden_back hmono1 hqh, ?_⟩
          rw [hcfg1] at hreach
          exact reachH_mono hskel1
            (fun a b3 hab => boardMono_hidden_back hmono1 hab) hreach
      · intro r' c' hr' hc' hhs hrevfin hcz q hq
        by_cases hs1h : (getCell s1.board r' c').state = CellState.hidden
        · have hcz1 : (getCell s1.board r' c').neighborMines = 0 := by
            rw [getCell_count_of_skeleton hskel1]
            exact hcz
          have hq1 : q ∈ neighborList s1.config.rows s1.config.cols r' c' := by
            rw [hcfg1]
            exact hq
          exact hclose2 r' c' (by rw [hcfg1]; exact hr') (by rw [hcfg1]; exact hc')
            hs1h hrevfin hcz1 q hq1
        · have hrev1' : (getCell s1.board r' c').state = CellState.revealed := by
            rcases hmono1 r' c' with h | ⟨_, h⟩
            · exact absurd (h.trans hhs) hs1h
            · exact h
          have hcl := hclose1 r' c' hr' hc' hhs hrev1' hcz q hq
          intro hfin
          exact hcl (boardMono_hidden_back hmono2 hfin)
    · obtain ⟨s2, heq2, hskel2, hcfg2, hst2, hwf2, hhc2, hmono2, hnh2, hsound2,
        hclose2, hwonNH2⟩ := ih s hst hwf hfuel
          (fun q hq => hl q (List.mem_cons_of_mem _ hq))
      refine ⟨s2, ?_, hskel2, hcfg2, hst2, hwf2, hhc2, hmono2, ?_, ?_, hclose2,
        hwonNH2⟩
      · rw [revealListGoAux, hcell]
        simp only [hh, if_false]
        exact heq2
      · intro q hq
        rcases List.mem_cons.mp hq with rfl | hq'
        · intro hfin
          exact hh (boardMono_hidden_back hmono2 hfin)
        · exact hnh2 q hq'
      · intro r' c' hrev
        rcases hsound2 r' c' hrev with h | ⟨q, hq, hqh, hreach⟩
        · exact Or.inl h
        · exact Or.inr ⟨q, List.mem_cons_of_mem _ hq, hqh, hreach⟩

end Minesweeper

namespace Minesweeper

lemma checkWinCondition_rc (s : MsState) :
    (checkWinCondition s).revealedCells = s.revealedCells := by
  unfold checkWinCondition
  split <;> rfl

lemma neighborList_ne_center (rows cols r c : Nat) :
    ∀ p ∈ neighborList rows cols r c, ¬(p.1 = r ∧ p.2 = c) := by
  intro p hp
  simp only [neighborList, List.mem_flatMap, List.mem_filterMap, List.mem_filter,
    List.mem_range] at hp
  obtain ⟨a, ⟨_, _⟩, b2, ⟨⟨_, _⟩, hif⟩⟩ := hp
  split at hif
  · simp at hif
  · rename_i hcond
    have heq : p = (a, b2) := by simpa using hif.symm
    subst heq
    simpa using hcond

lemma revealCellGoR_spec (shuffle : List (Nat × Nat) → List (Nat × Nat)) :
    ∀ fuel, CellSpecR shuffle fuel := by
  intro fuel
  induction fuel with
  | zero =>
    intro s r c _ _ hfuel
    omega
  | succ n ih =>
    intro s r c hplay hwf hfuel hr hc hm
    have hterm : ¬(s.status = MStatus.won ∨ s.status = MStatus.lost) := by
      rw [hplay]
      decide
    have hdims : Dims s.board s.config.rows s.config.cols := hwf.1
    have hcell := cellAt?_eq_getCell hdims hr hc
    by_cases hh : (getCell s.board r c).state = CellState.hidden
    · have hidle : ¬ s.status = MStatus.idle := by
        rw [hplay]
        decide
      obtain ⟨hlen, hrows⟩ := hdims
      have hrb : r < s.board.length := by omega
      have hrowlen : (s.board.getD r []).length = s.config.cols :=
        hrows _ (getD_mem_of_lt _ _ _ hrb)
      have hcb : c < (s.board.getD r []).length := by omega
      have hskel2 : skeleton (modifyCell s.board r c
          (fun cl => { cl with state := CellState.revealed })) = skeleton s.board :=
        skeleton_modifyCell_state _ _ _ _
      have hdims2 : Dims (modifyCell s.board r c
          (fun cl => { cl with state := CellState.revealed })) s.config.rows s.config.cols :=
        modifyCell_dims ⟨hlen, hrows⟩ r c hr _
      have hhc2 : hiddenCount (modifyCell s.board r c
          (fun cl => { cl with state := CellState.revealed })) + 1 = hiddenCount s.board :=
        hiddenCount_modifyCell_reveal ⟨hlen, hrows⟩ hr hc hh
      have hrc2 : revealedCount (modifyCell s.board r c
          (fun cl => { cl with state := CellState.revealed })) = revealedCount s.board + 1 :=
        revealedCount_modifyCell_reveal ⟨hlen, hrows⟩ hr hc hh
      have hmono2 : BoardMono s.board (modifyCell s.board r c
          (fun cl => { cl with state := CellState.revealed })) := boardMono_modifyCell_reveal hh
      have hrev2 : (getCell (modifyCell s.board r c
          (fun cl => { cl with state := CellState.revealed })) r c).state = CellState.revealed := by
        rw [getCell_modifyCell_same_raw hrb hcb]
      have hmine2 : ∀ r' c', (getCell (modifyCell s.board r c
          (fun cl => { cl with state := CellState.revealed })) r' c').isMine =
          (getCell s.board r' c').isMine :=
        fun r' c' => getCell_mine_of_skeleton hskel2 r' c'
      have hstateMB : ∀ r' c', ¬(r' = r ∧ c' = c) →
          getCell (modifyCell s.board r c
          (fun cl => { cl with state := CellState.revealed })) r' c' = getCell s.board r' c' :=
        fun r' c' hne => getCell_modifyCell_ne hne _
      have hwfS2 : WfR ({ s with
              board := modifyCell s.board r c
                (fun cl => { cl with state := CellState.revealed })
              revealedCells := s.revealedCells + 1 }) := by
        obtain ⟨hd0, hcons0, hcm0, hrc0, hrnm0⟩ := hwf
        refine ⟨hdims2, consistent_of_skeleton hskel2 hcons0, ?_, ?_, ?_⟩
        · show countMines (modifyCell s.board r c
          (fun cl => { cl with state := CellState.revealed })) = s.config.mines
          rw [countMines_eq_of_skeleton hskel2]
          exact hcm0
        · show s.revealedCells + 1 = revealedCount (modifyCell s.board r c
          (fun cl => { cl with state := CellState.revealed }))
          rw [hrc2]
          omega
        · intro a ha d hd2 hrevad
          show (getCell (modifyCell s.board r c
          (fun cl => { cl with state := CellState.revealed })) a d).isMine = false
          by_cases hsame : a = r ∧ d = c
          · obtain ⟨rfl, rfl⟩ := hsame
            rw [hmine2]
            exact hm
          · have hrevad' : (getCell s.board a d).state = CellState.revealed := by
              rw [← hstateMB a d hsame]
              exact hrevad
            rw [hmine2 a d]
            exact hrnm0 a ha d hd2 hrevad'
      by_cases hz : (getCell s.board r c).neighborMines = 0
      · have hfuel2 : n > hiddenCount (modifyCell s.board r c
          (fun cl => { cl with state := CellState.revealed })) := by omega
        have hlistprops : ∀ p ∈ neighborList s.config.rows s.config.cols r c,
            p.1 < s.config.rows ∧ p.2 < s.config.cols ∧
            (getCell (modifyCell s.board r c
          (fun cl => { cl with state := CellState.revealed })) p.1 p.2).isMine = false := by
          intro p hp
          obtain ⟨hb1, hb2⟩ := neighborList_bounds _ _ _ _ p hp
          refine ⟨hb1, hb2, ?_⟩
          rw [hmine2]
          exact hwf.2.1 r hr c hc hm hz p hp
        obtain ⟨s3, heq3, hskel3, hcfg3, hst3, hwf3, hhc3, hmono3, hnh3, hsound3,
          hclose3, hwonNH3⟩ :=
          revealListGoAuxR_spec shuffle n ih
            (neighborList s.config.rows s.config.cols r c)
            ({ s with
              board := modifyCell s.board r c
                (fun cl => { cl with state := CellState.revealed })
              revealedCells := s.revealedCells + 1 })
            (Or.inl hplay) hwfS2 hfuel2 hlistprops
        dsimp only at hskel3 hcfg3 hst3 hwf3 hhc3 hmono3 hnh3 hsound3 hclose3 hwonNH3
        obtain ⟨hwb, hwc, hws⟩ := checkWinCondition_facts s3
        refine ⟨checkWinCondition s3, true, ?_, ?_, ?_, ?_, ?_, ?_, ?_, ?_, ?_, ?_, ?_⟩
        · rw [revealCellGo]
          simp [hterm, hidle, hcell, hh, hm, hz, heq3]
        · rw [hwb]
          exact hskel3.trans hskel2
        · rw [hwc]
          exact hcfg3
        · rcases hws with hws0 | hws0
          · rw [hws0]
            exact hst3
          · rw [hws0]
            exact Or.inr rfl
        · obtain ⟨a1, a2, a3, a4, a5⟩ := hwf3
          refine ⟨?_, ?_, ?_, ?_, ?_⟩
          · rw [hwb, hwc]
            exact a1
          · rw [hwb, hwc]
            exact a2
          · rw [hwb, hwc]
            exact a3
          · rw [checkWinCondition_rc, hwb]
            exact a4
          · intro a ha d hd2 hrevad
            rw [hwc] at ha hd2
            rw [hwb] at hrevad ⊢
            exact a5 a ha d hd2 hrevad
        · rw [hwb]
          exact le_trans hhc3 (by omega)
        · rw [hwb]
          exact boardMono_trans hmono2 hmono3
        · intro _
          rw [hwb]
          exact boardMono_revealed hmono3 hrev2
        · intro r' c' hrev
          rw [hwb] at hrev
          rcases hsound3 r' c' hrev with hrevS2 | ⟨q, hq, hqh, hreach⟩
          · by_cases hsame : r' = r ∧ c' = c
            · obtain ⟨rfl, rfl⟩ := hsame
              exact Or.inr ReachH.start
            · rw [hstateMB r' c' hsame] at hrevS2
              exact Or.inl hrevS2
          · have hqne : ¬(q.1 = r ∧ q.2 = c) := neighborList_ne_center _ _ _ _ q hq
            have hqh' : (getCell s.board q.1 q.2).state = CellState.hidden := by
              rw [← hstateMB q.1 q.2 hqne]
              exact hqh
            have hreach' : ReachH s.board s.config.rows s.config.cols q.1 q.2 r' c' :=
              reachH_mono hskel2
                (fun a b3 hab => boardMono_hidden_back hmono2 hab) hreach
            exact Or.inr (reachH_append
              (ReachH.step ReachH.start hh hm hz hq hqh') hreach')
        · intro r' c' hr' hc' hhs hrevfin hcz q hq
          rw [hwb] at hrevfin
          rw [hwb]
          by_cases hsame : r' = r ∧ c' = c
          · obtain ⟨rfl, rfl⟩ := hsame
            exact hnh3 q hq
          · have hhs2 : (getCell (modifyCell s.board r c
          (fun cl => { cl with state := CellState.revealed })) r' c').state = CellState.hidden := by
              rw [hstateMB r' c' hsame]
              exact hhs
            have hcz2 : (getCell (modifyCell s.board r c
          (fun cl => { cl with state := CellState.revealed })) r' c').neighborMines = 0 := by
              rw [getCell_count_of_skeleton hskel2]
              exact hcz
            exact hclose3 r' c' hr' hc' hhs2 hrevfin hcz2 q hq
        · intro hwon
          by_cases hfire : s3.revealedCells =
              s3.config.rows * s3.config.cols - s3.config.mines
          · have hnh := noHiddenNonMine_of_full s3 hwf3 hfire
            intro a ha d hd2 hhidden
            rw [hwc] at ha hd2
            rw [hwb] at hhidden ⊢
            exact hnh a ha d hd2 hhidden
          · have hst' : (checkWinCondition s3).status = s3.status := by
              unfold checkWinCondition
              rw [if_neg hfire]
            rw [hst'] at hwon
            have hnh := hwonNH3 hwon
            intro a ha d hd2 hhidden
            rw [hwc] at ha hd2
            rw [hwb] at hhidden ⊢
            exact hnh a ha d hd2 hhidden
      · obtain ⟨hwb, hwc, hws⟩ := checkWinCondition_facts ({ s with
              board := modifyCell s.board r c
                (fun cl => { cl with state := CellState.revealed })
              revealedCells := s.revealedCells + 1 })
        dsimp only at hwb hwc hws
        refine ⟨checkWinCondition ({ s with
              board := modifyCell s.board r c
                (fun cl => { cl with state := CellState.revealed })
              revealedCells := s.revealedCells + 1 }), true, ?_, ?_, ?_, ?_, ?_, ?_, ?_, ?_, ?_, ?_, ?_⟩
        · rw [revealCellGo]
          simp [hterm, hidle, hcell, hh, hm, hz]
        · rw [hwb]
          exact hskel2
        · rw [hwc]
        · rcases hws with hws0 | hws0
          · rw [hws0]
            exact Or.inl hplay
          · rw [hws0]
            exact Or.inr rfl
        · obtain ⟨a1, a2, a3, a4, a5⟩ := hwfS2
          refine ⟨?_, ?_, ?_, ?_, ?_⟩
          · rw [hwb, hwc]
            exact a1
          · rw [hwb, hwc]
            exact a2
          · rw [hwb, hwc]
            exact a3
          · rw [checkWinCondition_rc, hwb]
            exact a4
          · intro a ha d hd2 hrevad
            rw [hwc] at ha hd2
            rw [hwb] at hrevad ⊢
            exact a5 a ha d hd2 hrevad
        · rw [hwb]
          show hiddenCount (modifyCell s.board r c
          (fun cl => { cl with state := CellState.revealed })) ≤ hiddenCount s.board
          omega
        · rw [hwb]
          exact hmono2
        · intro _
          rw [hwb]
          exact hrev2
        · intro r' c' hrev
          rw [hwb] at hrev
          by_cases hsame : r' = r ∧ c' = c
          · obtain ⟨rfl, rfl⟩ := hsame
            exact Or.inr ReachH.start
          · rw [hstateMB r' c' hsame] at hrev
            exact Or.inl hrev
        · intro r' c' hr' hc' hhs hrevfin hcz q hq
          rw [hwb] at hrevfin
          by_cases hsame : r' = r ∧ c' = c
          · obtain ⟨rfl, rfl⟩ := hsame
            exact absurd hcz hz
          · rw [hstateMB r' c' hsame] at hrevfin
            exact absurd (hhs.symm.trans hrevfin) (by decide)
        · intro hwon
          by_cases hfire : ({ s with
              board := modifyCell s.board r c
                (fun cl => { cl with state := CellState.revealed })
              revealedCells := s.revealedCells + 1 } : MsState).revealedCells =
              ({ s with
              board := modifyCell s.board r c
                (fun cl => { cl with state := CellState.revealed })
              revealedCells := s.revealedCells + 1 } : MsState).config.rows * ({ s with
              board := modifyCell s.board r c
                (fun cl => { cl with state := CellState.revealed })
              revealedCells := s.revealedCells + 1 } : MsState).config.cols -
                ({ s with
              board := modifyCell s.board r c
                (fun cl => { cl with state := CellState.revealed })
              revealedCells := s.revealedCells + 1 } : MsState).config.mines
          · have hnh := noHiddenNonMine_of_full _ hwfS2 hfire
            intro a ha d hd2 hhidden
            rw [hwc] at ha hd2
            rw [hwb] at hhidden ⊢
            exact hnh a ha d hd2 hhidden
          · have hst' : (checkWinCondition ({ s with
              board := modifyCell s.board r c
                (fun cl => { cl with state := CellState.revealed })
              revealedCells := s.revealedCells + 1 })).status =
                ({ s with
              board := modifyCell s.board r c
                (fun cl => { cl with state := CellState.revealed })
              revealedCells := s.revealedCells + 1 } : MsState).status := by
              unfold checkWinCondition
              rw [if_neg hfire]
            rw [hst'] at hwon
            dsimp only at hwon
            rw [hplay] at hwon
            exact absurd hwon (by decide)
    · refine ⟨s, false, ?_, rfl, rfl, Or.inl hplay, hwf, le_refl _,
        boardMono_refl _, fun hcontra => absurd hcontra hh,
        fun r' c' hrev => Or.inl hrev, ?_, ?_⟩
      · rw [revealCellGo]
        simp only [hterm, if_false, hcell]
        simp [hh]
      · intro r' c' _ _ hhs hrevs _
        exact absurd (hhs.symm.trans hrevs) (by decide)
      · intro hwon
        rw [hplay] at hwon
        exact absurd hwon (by decide)

end Minesweeper

namespace Minesweeper

/-- C7 (counterexample): after flagging (0,1) on a fresh 5x5 one-mine board
and first-clicking (4,4) (identity shuffle: the mine lands at (0,0)), the
flood fill terminates in the state `c7final`, in which (0,1) belongs to the
spec's region-plus-border (`ReachP`, via the zero chain
(4,4)-(3,3)-(2,2)-(1,2)-(0,2)) but is not revealed — the flagged cell
blocks the reveal, refuting the claimed exact characterisation. -/
theorem C7_counterexample :
    flagThenReveal = some (c7final, true) ∧
    ReachP c7final.board 5 5 4 4 0 1 ∧
    (getCell c7final.board 0 1).state ≠ CellState.revealed := by
  refine ⟨by decide, ?_, by decide⟩
  have h1 : ReachP c7final.board 5 5 4 4 3 3 :=
    ReachP.step ReachP.start (by decide) (by decide)
  have h2 : ReachP c7final.board 5 5 4 4 2 2 :=
    ReachP.step h1 (by decide) (by decide)
  have h3 : ReachP c7final.board 5 5 4 4 1 2 :=
    ReachP.step h2 (by decide) (by decide)
  have h4 : ReachP c7final.board 5 5 4 4 0 2 :=
    ReachP.step h3 (by decide) (by decide)
  exact ReachP.step h4 (by decide) (by decide)

/-- C7 (amended): on any well-formed playing state, revealing an in-bounds
hidden non-mine cell terminates (fuel `hiddenCount + 1` suffices, each cell
being revealed at most once), and the revealed set afterwards is exactly
the previously revealed cells plus the cells reachable from the click
through hidden zero-count non-mine cells into hidden cells (`ReachH`) —
the spec's region-plus-border restricted to hidden cells, so flagged or
questioned cells block the flood and stay unrevealed. -/
theorem C7_amended (shuffle : List (Nat × Nat) → List (Nat × Nat)) (s : MsState)
    (r c : Nat) (hst : s.status = MStatus.playing) (hwf : WfR s)
    (hr : r < s.config.rows) (hc : c < s.config.cols)
    (hm : (getCell s.board r c).isMine = false)
    (hh : (getCell s.board r c).state = CellState.hidden) :
    ∃ s' b2, revealCell shuffle s r c = some (s', b2) ∧
      ∀ r' c', (getCell s'.board r' c').state = CellState.revealed ↔
        ((getCell s.board r' c').state = CellState.revealed ∨
         ReachH s.board s.config.rows s.config.cols r c r' c') := by
  obtain ⟨s', b2, heq, hskel, hcfg, hstat, hwf', hhc, hmono, hD, hC, hE, hF⟩ :=
    revealCellGoR_spec shuffle (hiddenCount s.board + 1) s r c hst hwf
      (by omega) hr hc hm
  refine ⟨s', b2, heq, ?_⟩
  intro r' c'
  constructor
  · exact fun hrev => hC r' c' hrev
  · intro hdisj
    rcases hdisj with hrev | hreach
    · exact boardMono_revealed hmono hrev
    · induction hreach with
      | start => exact hD hh
      | step h1 hs1 hm1 hz1 hmem1 hth1 ih2 =>
        rename_i a d a2 d2
        obtain ⟨ha1, ha2⟩ := reachH_bounds hr hc h1
        have hnb := hE a d ha1 ha2 hs1 ih2 hz1 (a2, d2) hmem1
        rcases hmono a2 d2 with heq2 | ⟨_, hrev3⟩
        · exact absurd (heq2.trans hth1) hnb
        · exact hrev3

/-- Witness for C7_amended: the 2x2 one-mine mid-game state, revealing the
count-1 corner (1,1). -/
theorem C7_witness :
    ∃ s' b2, revealCell (fun l => l) c7midState 1 1 = some (s', b2) ∧
      ∀ r' c', (getCell s'.board r' c').state = CellState.revealed ↔
        ((getCell c7midState.board r' c').state = CellState.revealed ∨
         ReachH c7midState.board c7midState.config.rows c7midState.config.cols
           1 1 r' c') :=
  C7_amended (fun l => l) c7midState 1 1 rfl
    ⟨by unfold Dims; decide, by unfold Consistent; decide, by decide, by decide,
      by decide⟩
    (by decide) (by decide) (by decide) (by decide)

end Minesweeper
